import Mathlib

/-!
# my_ebbinghaus: scheduler, store and review session

A shallow embedding of `src/js/ebbinghaus.js`, `src/js/storage.js` and the
review session of `src/js/app.js`.

Modelling conventions.

* The host (browser) is a record `Host`: the clock reading `now`
  (milliseconds since the epoch, UTC), the local zone as a fixed offset
  `tzMinutes`, what `Date.parse` answers for strings that are not of the
  date-only form `YYYY-MM-DD` (`parseOther`, implementation-defined in
  ECMA-262), and whether `localStorage.setItem` accepts a collection
  (`accepts`; a rejected write is the quota exception).
* A JavaScript `Date` is its time value: `some t` (milliseconds, UTC) or
  `none` (the time value `NaN`, an "Invalid Date").  The calendar
  functions are the abstract operations of ECMA-262 (`Day`, `DayFromYear`,
  `YearFromTime`, `MonthFromTime`, `DateFromTime`, `MakeDay`, ...).
* A thrown exception is `Except.error`; every function below that throws
  does so before it writes, so an error leaves the store as it was.
* Stored points are typed records; `reviewCount` is a natural number
  (counts stay far below 2^53, where JavaScript numbers are exact).
-/

namespace Ebbinghaus

/-! ## JavaScript strings -/

/-- The UTF-16 code units of a character, which is how JavaScript sees it. -/
def utf16Units (c : Char) : List Nat :=
  if c.toNat < 65536 then [c.toNat]
  else [55296 + (c.toNat - 65536) / 1024, 56320 + (c.toNat - 65536) % 1024]

/-- The UTF-16 code units of a string. -/
def utf16 (s : String) : List Nat := s.data.flatMap utf16Units

/-- Lexicographic `<` on code-unit sequences (a proper initial segment is smaller). -/
def unitsLt : List Nat → List Nat → Bool
  | _, [] => false
  | [], _ :: _ => true
  | a :: as, b :: bs => if a < b then true else if b < a then false else unitsLt as bs

/-- JavaScript `a <= b` on strings: not `b < a`, comparing code units. -/
def jsStrLe (a b : String) : Bool := !unitsLt (utf16 b) (utf16 a)

/-- ECMA-262 WhiteSpace and LineTerminator code points, those `trim` removes. -/
def isJsSpace (c : Char) : Bool :=
  let n := c.toNat
  n = 9 || n = 10 || n = 11 || n = 12 || n = 13 || n = 32 || n = 160 || n = 5760
    || (8192 ≤ n && n ≤ 8202) || n = 8232 || n = 8233 || n = 8239 || n = 8287
    || n = 12288 || n = 65279

/-- `String.prototype.trim`. -/
def jsTrim (s : String) : String :=
  String.mk ((s.data.dropWhile isJsSpace).reverse.dropWhile isJsSpace).reverse

/-- A string or a missing value: `undefined` (also an absent property) and `null`. -/
inductive JsStr where
  | undefined
  | null
  | str (s : String)
deriving DecidableEq, Repr

/-- JavaScript truthiness of a string-or-missing value: only a non-empty string is truthy. -/
def JsStr.truthy : JsStr → Bool
  | .str s => s ≠ ""
  | _ => false

/-! ## Data model (`storage.js`, typedef `KnowledgePoint`) -/

structure KnowledgePoint where
  id : String
  title : String
  content : String
  masteryLevel : String
  lastReviewed : JsStr
  nextReview : JsStr
  reviewCount : Nat
  createdAt : String
  tags : List String
deriving DecidableEq, Repr

/-- A `Partial<KnowledgePoint>`: `none` is a property the object does not have. -/
structure Updates where
  id : Option String := none
  title : Option String := none
  content : Option String := none
  masteryLevel : Option String := none
  lastReviewed : Option JsStr := none
  nextReview : Option JsStr := none
  reviewCount : Option Nat := none
  createdAt : Option String := none
  tags : Option (List String) := none
deriving DecidableEq, Repr

/-- What `localStorage` holds under `my_ebbinghaus_knowledge_points`, seen
through `JSON.parse`: nothing, something that is not a JSON array, or an
array of points (`JSON.stringify` followed by `JSON.parse` gives a typed
collection back unchanged). -/
inductive Store where
  | absent
  | corrupt
  | array (points : List KnowledgePoint)
deriving DecidableEq, Repr

/-! ## Host -/

/-- The browser environment the scripts run in. -/
structure Host where
  /-- Clock reading `Date.now()`: milliseconds since 1970-01-01T00:00Z. -/
  now : Int
  /-- Offset of the local zone from UTC, in minutes (local = UTC + offset). -/
  tzMinutes : Int
  /-- Result of `Date.parse` on a string that is not `YYYY-MM-DD`. -/
  parseOther : String → Option Int
  /-- Whether `localStorage.setItem` accepts this collection (no quota error). -/
  accepts : List KnowledgePoint → Bool

/-! ## ECMA-262 time arithmetic -/

def msPerDay : Int := 86400000

def msPerMinute : Int := 60000

/-- ECMA-262 `Day(t)`: the day number of a time value. -/
def Day (t : Int) : Int := t / msPerDay

/-- ECMA-262 `TimeWithinDay(t)`. -/
def TimeWithinDay (t : Int) : Int := t % msPerDay

/-- ECMA-262 `DaysInYear(y)`. -/
def DaysInYear (y : Int) : Int :=
  if y % 4 ≠ 0 then 365
  else if y % 100 ≠ 0 then 366
  else if y % 400 ≠ 0 then 365
  else 366

/-- ECMA-262 `DayFromYear(y)`: day number of the first day of year `y`. -/
def DayFromYear (y : Int) : Int :=
  365 * (y - 1970) + (y - 1969) / 4 - (y - 1901) / 100 + (y - 1601) / 400

/-- ECMA-262 `YearFromTime(t)`: the largest `y` whose first day is not after
`t`.  The estimate from the mean year length is off by at most one. -/
def YearFromTime (t : Int) : Int :=
  let d := Day t
  let y := 1970 + (d * 400) / 146097
  if DayFromYear (y + 1) ≤ d then y + 1
  else if d < DayFromYear y then y - 1
  else y

/-- ECMA-262 `InLeapYear(t)`, as 0 or 1. -/
def InLeapYear (t : Int) : Int :=
  if DaysInYear (YearFromTime t) = 366 then 1 else 0

/-- ECMA-262 `DayWithinYear(t)`. -/
def DayWithinYear (t : Int) : Int := Day t - DayFromYear (YearFromTime t)

/-- The table of ECMA-262 `MonthFromTime`: the month (0 is January) holding
day `d` of a year, `leap` being 1 in a leap year and 0 otherwise. -/
def monthOfYearDay (d leap : Int) : Int :=
  if d < 31 then 0
  else if d < 59 + leap then 1
  else if d < 90 + leap then 2
  else if d < 120 + leap then 3
  else if d < 151 + leap then 4
  else if d < 181 + leap then 5
  else if d < 212 + leap then 6
  else if d < 243 + leap then 7
  else if d < 273 + leap then 8
  else if d < 304 + leap then 9
  else if d < 334 + leap then 10
  else 11

/-- ECMA-262 `MonthFromTime(t)`: 0 is January, 11 is December. -/
def MonthFromTime (t : Int) : Int := monthOfYearDay (DayWithinYear t) (InLeapYear t)

/-- Day within the year on which month `m` (0-based) starts. -/
def monthStart (m : Int) (leap : Int) : Int :=
  if m = 0 then 0
  else if m = 1 then 31
  else if m = 2 then 59 + leap
  else if m = 3 then 90 + leap
  else if m = 4 then 120 + leap
  else if m = 5 then 151 + leap
  else if m = 6 then 181 + leap
  else if m = 7 then 212 + leap
  else if m = 8 then 243 + leap
  else if m = 9 then 273 + leap
  else if m = 10 then 304 + leap
  else 334 + leap

/-- ECMA-262 `DateFromTime(t)`: the day of the month, from 1. -/
def DateFromTime (t : Int) : Int :=
  DayWithinYear t - monthStart (MonthFromTime t) (InLeapYear t) + 1

/-- ECMA-262 `MakeDay(year, month, date)` on integers: `month` is 0-based
and may lie outside 0..11, `date` may lie outside the month. -/
def MakeDay (year month date : Int) : Int :=
  let ym := year + month / 12
  let mn := month % 12
  let leap : Int := if DaysInYear ym = 366 then 1 else 0
  DayFromYear ym + monthStart mn leap + date - 1

/-- ECMA-262 `MakeDate(day, time)`. -/
def MakeDate (day time : Int) : Int := day * msPerDay + time

/-- ECMA-262 `TimeClip`: a time value beyond 8.64e15 ms is `NaN`. -/
def TimeClip (t : Int) : Option Int :=
  if t.natAbs ≤ 8640000000000000 then some t else none

/-- ECMA-262 `LocalTime(t)` for a zone with a fixed offset. -/
def LocalTime (h : Host) (t : Int) : Int := t + h.tzMinutes * msPerMinute

/-- ECMA-262 `UTC(t)` for a zone with a fixed offset. -/
def UTC (h : Host) (t : Int) : Int := t - h.tzMinutes * msPerMinute

/-! ## The `Date` object -/

/-- A `Date`: its time value, `none` being `NaN`. -/
abbrev JsDate := Option Int

/-- Value of a decimal digit character. -/
def digitValue (c : Char) : Option Nat :=
  if 48 ≤ c.toNat ∧ c.toNat ≤ 57 then some (c.toNat - 48) else none

/-- Value of a run of decimal digits; `none` if one of them is no digit. -/
def digitsValue (cs : List Char) : Option Nat :=
  cs.foldl (fun acc c => match acc, digitValue c with
    | some a, some v => some (10 * a + v)
    | _, _ => none) (some 0)

/-- Number of days of month `m` (1-based) of year `y`. -/
def daysInMonth (y : Int) (m : Nat) : Nat :=
  if m = 2 then (if DaysInYear y = 366 then 29 else 28)
  else if m = 4 ∨ m = 6 ∨ m = 9 ∨ m = 11 then 30
  else 31

/-- The date-only form `YYYY-MM-DD` of the ECMA-262 date-time string format,
with legal field values: year, month (1-based) and day. -/
def parseDateOnly (s : String) : Option (Nat × Nat × Nat) :=
  match s.data with
  | [y1, y2, y3, y4, s1, m1, m2, s2, d1, d2] =>
    if s1 = '-' ∧ s2 = '-' then
      match digitsValue [y1, y2, y3, y4], digitsValue [m1, m2], digitsValue [d1, d2] with
      | some y, some m, some d =>
        if 1 ≤ m ∧ m ≤ 12 ∧ 1 ≤ d ∧ d ≤ daysInMonth y m then some (y, m, d) else none
      | _, _, _ => none
    else none
  | _ => none

/-- `Date.parse(s)`: a date-only string with legal fields is midnight UTC of
that day (ECMA-262, Date Time String Format: "when the UTC offset
representation is absent, date-only forms are interpreted as a UTC time");
what any other string gives is left to the host. -/
def dateParse (h : Host) (s : String) : JsDate :=
  match parseDateOnly s with
  | some (y, m, d) => TimeClip (MakeDate (MakeDay y (m - 1 : Nat) d) 0)
  | none => h.parseOther s

/-- `new Date(value)` for a string or a missing value: `undefined` gives an
invalid date, `null` converts to the number 0. -/
def newDate (h : Host) : JsStr → JsDate
  | .undefined => none
  | .null => some 0
  | .str s => dateParse h s

/-- `Date.prototype.getFullYear`. -/
def getFullYear (h : Host) (d : JsDate) : Option Int :=
  d.map fun t => YearFromTime (LocalTime h t)

/-- `Date.prototype.getMonth` (0-based). -/
def getMonth (h : Host) (d : JsDate) : Option Int :=
  d.map fun t => MonthFromTime (LocalTime h t)

/-- `Date.prototype.getDate`. -/
def getDate (h : Host) (d : JsDate) : Option Int :=
  d.map fun t => DateFromTime (LocalTime h t)

/-- `Date.prototype.setDate(dt)`: the new time value of the date. -/
def setDate (h : Host) (d : JsDate) (dt : Option Int) : JsDate :=
  match d, dt with
  | some tv, some n =>
    let t := LocalTime h tv
    let newDate := MakeDate (MakeDay (YearFromTime t) (MonthFromTime t) n) (TimeWithinDay t)
    TimeClip (UTC h newDate)
  | _, _ => none

/-- `Date.prototype.setHours(0, 0, 0, 0)`: local midnight of the same local day. -/
def setHoursZero (h : Host) (d : JsDate) : JsDate :=
  match d with
  | some tv => TimeClip (UTC h (MakeDate (Day (LocalTime h tv)) 0))
  | none => none

/-- Decimal digit character of a number below ten. -/
def digitChar (n : Nat) : Char :=
  match n with
  | 0 => '0' | 1 => '1' | 2 => '2' | 3 => '3' | 4 => '4'
  | 5 => '5' | 6 => '6' | 7 => '7' | 8 => '8' | _ => '9'

/-- Decimal digits of a natural number, most significant first. -/
def natDigits : Nat → Nat → List Char
  | 0, _ => []
  | fuel + 1, n =>
    if n < 10 then [digitChar n] else natDigits fuel (n / 10) ++ [digitChar (n % 10)]

/-- `String(n)` for an integer-valued number, `none` being `NaN`. -/
def numberToString : Option Int → String
  | none => "NaN"
  | some n =>
    if n < 0 then String.mk ('-' :: natDigits (n.natAbs + 1) n.natAbs)
    else String.mk (natDigits (n.natAbs + 1) n.natAbs)

/-- `s.padStart(2, '0')`. -/
def padStart2 (s : String) : String :=
  String.mk (List.replicate (2 - s.length) '0' ++ s.data)

/-! ## `ebbinghaus.js` -/

/-- The values of the constant `MASTERY_LEVELS`. -/
def MASTERY_LEVELS : List String := ["mastered", "learning", "struggling"]

/-- Height of a level in the demotion chain mastered, learning, struggling;
any other string counts as the floor. -/
def masteryRank (level : String) : Nat :=
  if level = "mastered" then 2 else if level = "learning" then 1 else 0

/-- What a property read `REVIEW_INTERVALS[key]` finds. -/
inductive IntervalLookup where
  /-- An own property: the interval array of a mastery level. -/
  | array (intervals : List Nat)
  /-- A property inherited from `Object.prototype` (a function or object). -/
  | inherited
  /-- No such property: `undefined`. -/
  | undefined
deriving DecidableEq, Repr

/-- Property names every object inherits from `Object.prototype`. -/
def objectPrototypeKeys : List String :=
  ["constructor", "hasOwnProperty", "isPrototypeOf", "propertyIsEnumerable",
   "toLocaleString", "toString", "valueOf", "__proto__", "__defineGetter__",
   "__defineSetter__", "__lookupGetter__", "__lookupSetter__"]

/-- The table `REVIEW_INTERVALS`, read at a key. -/
def REVIEW_INTERVALS (key : String) : IntervalLookup :=
  if key = "mastered" then .array [1, 3, 7, 15, 30]
  else if key = "learning" then .array [1, 2, 4, 8, 16]
  else if key = "struggling" then .array [0, 1, 2, 4, 8]
  else if key ∈ objectPrototypeKeys then .inherited
  else .undefined

/-- `formatDate(date)`: local year, month and day as `YYYY-MM-DD`. -/
def formatDate (h : Host) (date : JsDate) : String :=
  let year := getFullYear h date
  let month := padStart2 (numberToString ((getMonth h date).map (· + 1)))
  let day := padStart2 (numberToString (getDate h date))
  numberToString year ++ "-" ++ month ++ "-" ++ day

/-- `getTodayString()`: the local date of the clock reading. -/
def getTodayString (h : Host) : String := formatDate h (some h.now)

/-- Number addition `a + b`, `none` being `NaN` (or `undefined` as an operand). -/
def jsAdd : Option Int → Option Int → Option Int
  | some a, some b => some (a + b)
  | _, _ => none

/-- `calculateNextReviewDate(masteryLevel, lastReviewDate, reviewCount)`.
For a key inherited from `Object.prototype` the value read is no array, the
index read on it is `undefined`, and `setDate` receives `NaN`. -/
def calculateNextReviewDate (h : Host) (masteryLevel lastReviewDate : JsStr)
    (reviewCount : Nat) : Except String String :=
  if !masteryLevel.truthy || !lastReviewDate.truthy then
    .error "掌握程度和上次复习日期不能为空"
  else
    match masteryLevel with
    | .str level =>
      match REVIEW_INTERVALS level with
      | .undefined => .error ("未知的掌握程度: " ++ level)
      | .inherited =>
        let lastReview := newDate h lastReviewDate
        let nextReview := setDate h lastReview (jsAdd (getDate h lastReview) none)
        .ok (formatDate h nextReview)
      | .array intervals =>
        let intervalIndex := min reviewCount (intervals.length - 1)
        let daysToAdd := (intervals.get? intervalIndex).map Int.ofNat
        let lastReview := newDate h lastReviewDate
        let nextReview := setDate h lastReview (jsAdd (getDate h lastReview) daysToAdd)
        .ok (formatDate h nextReview)
    | _ => .error "掌握程度和上次复习日期不能为空"

/-- `shouldReview(nextReviewDate)`: today at local midnight is not before
the review date at local midnight; a comparison with `NaN` is false. -/
def shouldReview (h : Host) (nextReviewDate : JsStr) : Bool :=
  let today := setHoursZero h (some h.now)
  let nextReview := setHoursZero h (newDate h nextReviewDate)
  match today, nextReview with
  | some a, some b => decide (b ≤ a)
  | _, _ => false

/-- `processReviewResult(currentMasteryLevel, reviewResult)`. -/
def processReviewResult (currentMasteryLevel reviewResult : String) : String :=
  if reviewResult = "success" then currentMasteryLevel
  else if currentMasteryLevel = "mastered" then "learning"
  else if currentMasteryLevel = "learning" then "struggling"
  else if currentMasteryLevel = "struggling" then "struggling"
  else "struggling"

/-! ## `storage.js` -/

/-- `loadKnowledgePoints()`: the stored array, or the empty array when the
key is absent or what it holds is not a JSON array. -/
def loadKnowledgePoints : Store → List KnowledgePoint
  | .array points => points
  | _ => []

/-- `saveKnowledgePoints(points)`: one whole-collection write; `false` and
no change when `setItem` throws. -/
def saveKnowledgePoints (h : Host) (points : List KnowledgePoint) (s : Store) :
    Bool × Store :=
  if h.accepts points then (true, .array points) else (false, s)

/-- `addKnowledgePoint(title, content, tags, masteryLevel)`; `freshId` is
what `generateId()` returns.  An argument `undefined` takes its default. -/
def addKnowledgePoint (h : Host) (freshId : String) (title content : String)
    (tags : Option (List String)) (masteryLevel : JsStr) (s : Store) :
    Except String (KnowledgePoint × Store) :=
  let masteryLevel := if masteryLevel = .undefined then .str "struggling" else masteryLevel
  if title = "" ∨ content = "" then .error "标题和内容不能为空"
  else
    let points := loadKnowledgePoints s
    match calculateNextReviewDate h masteryLevel (.str (getTodayString h)) 0, masteryLevel with
    | .ok nextReviewDate, .str level =>
      let newPoint : KnowledgePoint :=
        { id := freshId
          title := jsTrim title
          content := jsTrim content
          masteryLevel := level
          lastReviewed := .null
          nextReview := .str nextReviewDate
          reviewCount := 0
          createdAt := getTodayString h
          tags := tags.getD [] }
      match saveKnowledgePoints h (points ++ [newPoint]) s with
      | (true, s') => .ok (newPoint, s')
      | (false, _) => .error "保存知识点失败"
    | .ok _, _ => .error "掌握程度和上次复习日期不能为空"
    | .error e, _ => .error e

/-- `points.findIndex(point => point.id === id)`; `none` is `-1`. -/
def findIndex (id : String) : List KnowledgePoint → Option Nat
  | [] => none
  | point :: rest =>
    if point.id = id then some 0 else (findIndex id rest).map (· + 1)

/-- The object spread of a point and an update object: a property of the update wins. -/
def mergeUpdates (currentPoint : KnowledgePoint) (updates : Updates) : KnowledgePoint :=
  { id := updates.id.getD currentPoint.id
    title := updates.title.getD currentPoint.title
    content := updates.content.getD currentPoint.content
    masteryLevel := updates.masteryLevel.getD currentPoint.masteryLevel
    lastReviewed := updates.lastReviewed.getD currentPoint.lastReviewed
    nextReview := updates.nextReview.getD currentPoint.nextReview
    reviewCount := updates.reviewCount.getD currentPoint.reviewCount
    createdAt := updates.createdAt.getD currentPoint.createdAt
    tags := updates.tags.getD currentPoint.tags }

/-- `updateKnowledgePoint(id, updates)`: the value returned and the store
afterwards.  `changed` is the test `updates.masteryLevel &&
updates.masteryLevel !== currentPoint.masteryLevel`; the index found always
holds a point, so the second `none` branch is never taken. -/
def updateKnowledgePoint (h : Host) (id : String) (updates : Updates) (s : Store) :
    Except String (Bool × Store) :=
  let points := loadKnowledgePoints s
  match findIndex id points with
  | none => .ok (false, s)
  | some index =>
    match points.get? index with
    | none => .ok (false, s)
    | some currentPoint =>
      let changed : Option String :=
        match updates.masteryLevel with
        | some level => if level ≠ "" ∧ level ≠ currentPoint.masteryLevel then some level else none
        | none => none
      match changed with
      | some level =>
        match calculateNextReviewDate h (.str level) (.str (getTodayString h))
            currentPoint.reviewCount with
        | .error e => .error e
        | .ok newNextReview =>
          let updates := { updates with nextReview := some (.str newNextReview) }
          .ok (saveKnowledgePoints h (points.set index (mergeUpdates currentPoint updates)) s)
      | none =>
        .ok (saveKnowledgePoints h (points.set index (mergeUpdates currentPoint updates)) s)

/-- `deleteKnowledgePoint(id)`. -/
def deleteKnowledgePoint (h : Host) (id : String) (s : Store) : Bool × Store :=
  let points := loadKnowledgePoints s
  let filteredPoints := points.filter fun point => point.id ≠ id
  if filteredPoints.length = points.length then (false, s)
  else saveKnowledgePoints h filteredPoints s

/-- `getPointsToReview()`: no review date, or a date string not after today
in string order. -/
def getPointsToReview (h : Host) (s : Store) : List KnowledgePoint :=
  let points := loadKnowledgePoints s
  let today := getTodayString h
  points.filter fun point =>
    !point.nextReview.truthy ||
      (match point.nextReview with
        | .str nextReview => jsStrLe nextReview today
        | _ => false)

/-- `getAllKnowledgePoints()`. -/
def getAllKnowledgePoints (s : Store) : List KnowledgePoint := loadKnowledgePoints s

/-- Whether the text begins with the pattern. -/
def startsWithChars : List Char → List Char → Bool
  | _, [] => true
  | [], _ :: _ => false
  | c :: cs, x :: xs => c = x && startsWithChars cs xs

/-- Whether the pattern occurs in the text at some position. -/
def includesChars : List Char → List Char → Bool
  | [], pattern => pattern.isEmpty
  | c :: cs, pattern => startsWithChars (c :: cs) pattern || includesChars cs pattern

/-- `text.includes(pattern)`.  (In well-formed strings an occurrence by code
units starts and ends at character boundaries.) -/
def jsIncludes (text pattern : String) : Bool := includesChars text.data pattern.data

/-- `searchKnowledgePoints(query)`.  `toLowerCase` is
`String.prototype.toLowerCase`, whose Unicode case mapping is taken as a
parameter. -/
def searchKnowledgePoints (toLowerCase : String → String) (query : String) (s : Store) :
    List KnowledgePoint :=
  if query = "" ∨ jsTrim query = "" then getAllKnowledgePoints s
  else
    let points := loadKnowledgePoints s
    let lowerQuery := toLowerCase query
    points.filter fun point =>
      jsIncludes (toLowerCase point.title) lowerQuery ||
      jsIncludes (toLowerCase point.content) lowerQuery ||
      point.tags.any fun tag => jsIncludes (toLowerCase tag) lowerQuery

/-! ## The review session of `app.js` -/

/-- What the page shows. -/
inductive Screen where
  | list
  /-- The review card of a point, with the progress text `position / total`. -/
  | card (point : KnowledgePoint) (position total : Nat)
  /-- The "review complete" message. -/
  | complete
deriving DecidableEq, Repr

/-- The session fields of `MyEbbinghausApp` and what is on screen.  The page
elements the methods write to are taken to exist. -/
structure MyEbbinghausApp where
  currentMode : String
  reviewPoints : List KnowledgePoint
  currentReviewIndex : Nat
  screen : Screen
deriving DecidableEq, Repr

namespace MyEbbinghausApp

/-- The card branch of `renderReviewCard` (index in range). -/
def showCard (a : MyEbbinghausApp) : MyEbbinghausApp :=
  match a.reviewPoints.get? a.currentReviewIndex with
  | some point =>
    { a with screen := .card point (a.currentReviewIndex + 1) a.reviewPoints.length }
  | none => a

/-- `showReviewComplete()`.  When points are due it restarts at index 0 and
calls `renderReviewCard` again, which then takes the card branch. -/
def showReviewComplete (h : Host) (s : Store) (a : MyEbbinghausApp) : MyEbbinghausApp :=
  let newReviewPoints := getPointsToReview h s
  if newReviewPoints.length > 0 then
    showCard { a with reviewPoints := newReviewPoints, currentReviewIndex := 0 }
  else
    { a with screen := .complete }

/-- `renderReviewCard()`. -/
def renderReviewCard (h : Host) (s : Store) (a : MyEbbinghausApp) : MyEbbinghausApp :=
  if a.currentReviewIndex ≥ a.reviewPoints.length then showReviewComplete h s a
  else showCard a

/-- `startReview()`. -/
def startReview (h : Host) (s : Store) (a : MyEbbinghausApp) : MyEbbinghausApp :=
  let a := { a with reviewPoints := getPointsToReview h s }
  if a.reviewPoints.length = 0 then a
  else renderReviewCard h s { a with currentReviewIndex := 0, currentMode := "review" }

/-- `nextReview()`. -/
def nextReview (h : Host) (s : Store) (a : MyEbbinghausApp) : MyEbbinghausApp :=
  let a := { a with currentReviewIndex := a.currentReviewIndex + 1 }
  let a := { a with reviewPoints := getPointsToReview h s }
  let a := if a.currentReviewIndex ≥ a.reviewPoints.length then
    { a with currentReviewIndex := 0 } else a
  renderReviewCard h s a

/-- The update object `markReviewResult` builds for a point and a result;
an error is the exception of `calculateNextReviewDate`. -/
def reviewUpdateData (h : Host) (point : KnowledgePoint) (result : String) :
    Except String Updates :=
  let newMasteryLevel := processReviewResult point.masteryLevel result
  if result = "success" then
    match calculateNextReviewDate h (.str newMasteryLevel) (.str (getTodayString h))
        (point.reviewCount + 1) with
    | .error e => .error e
    | .ok nextReviewDate =>
      .ok { masteryLevel := some newMasteryLevel
            lastReviewed := some (.str (getTodayString h))
            nextReview := some (.str nextReviewDate)
            reviewCount := some (point.reviewCount + 1) }
  else
    match calculateNextReviewDate h (.str newMasteryLevel) (.str (getTodayString h)) 0 with
    | .error e => .error e
    | .ok nextReviewDate =>
      .ok { masteryLevel := some newMasteryLevel
            nextReview := some (.str nextReviewDate)
            reviewCount := some 0 }

/-- `markReviewResult(result)`: the session and the store afterwards.  With
no current point the property read on `undefined` throws. -/
def markReviewResult (h : Host) (result : String) (a : MyEbbinghausApp) (s : Store) :
    Except String (MyEbbinghausApp × Store) :=
  match a.reviewPoints.get? a.currentReviewIndex with
  | none => .error "TypeError: Cannot read properties of undefined"
  | some point =>
    match reviewUpdateData h point result with
    | .error e => .error e
    | .ok updateData =>
      match updateKnowledgePoint h point.id updateData s with
      | .error e => .error e
      | .ok (_, s') => .ok (nextReview h s' a, s')

/-- `skipReview()`. -/
def skipReview (h : Host) (a : MyEbbinghausApp) (s : Store) : MyEbbinghausApp × Store :=
  (nextReview h s a, s)

/-- `exitReview()`. -/
def exitReview (a : MyEbbinghausApp) : MyEbbinghausApp :=
  { a with currentMode := "list", screen := .list }

end MyEbbinghausApp

/-- Spec (search), in the words of the claim: the field contains the query as
a substring when case is ignored. -/
def containsIgnoringCase (toLowerCase : String → String) (field query : String) : Prop :=
  (toLowerCase query).data <:+: (toLowerCase field).data

/-- Spec (search), in the words of the claim: the title, the content or at
least one tag of the point contains the query, case ignored. -/
def matchesQuery (toLowerCase : String → String) (point : KnowledgePoint)
    (query : String) : Prop :=
  containsIgnoringCase toLowerCase point.title query ∨
    containsIgnoringCase toLowerCase point.content query ∨
    ∃ tag ∈ point.tags, containsIgnoringCase toLowerCase tag query

/-- The store after a call that may throw: the store the call returns, or
the store as it was when the call threw. -/
def storeAfter {α : Type} (r : Except String (α × Store)) (before : Store) : Store :=
  match r with
  | .ok (_, s') => s'
  | .error _ => before

/-! ## Calendar dates as day numbers -/

/-- The calendar date of day number `day` (days since 1970-01-01), written
the way `formatDate` writes a date. -/
def dayString (day : Int) : String :=
  let t := MakeDate day 0
  numberToString (some (YearFromTime t)) ++ "-"
    ++ padStart2 (numberToString (some (MonthFromTime t + 1))) ++ "-"
    ++ padStart2 (numberToString (some (DateFromTime t)))

/-- Day number of the calendar date year `y`, month `m` (1-based), day `d`. -/
def dayNumber (y m d : Nat) : Int := MakeDay y (m - 1 : Nat) d

/-- Entry of the interval table the scheduler uses for a level and a review count. -/
def intervalFor (level : String) (reviewCount : Nat) : Option Nat :=
  match REVIEW_INTERVALS level with
  | .array intervals => intervals.get? (min reviewCount (intervals.length - 1))
  | _ => none

/-! ## Sample hosts and points -/

/-- The instant 2024-01-10T09:00Z. -/
def sampleNow : Int := 1704877200000

/-- A host whose clock reads `sampleNow`, in the zone with the given offset
(minutes east of UTC), with no fallback date parser and a store that takes
every write.  Its local date is 2024-01-10 for offsets from -9h to +14h. -/
def hostAt (tzMinutes : Int) : Host :=
  { now := sampleNow, tzMinutes := tzMinutes, parseOther := fun _ => none,
    accepts := fun _ => true }

/-- A stored point with the given id, level, review count and review date. -/
def samplePoint (id level : String) (reviewCount : Nat) (nextReview : String) :
    KnowledgePoint :=
  { id := id, title := "t", content := "c", masteryLevel := level, lastReviewed := .null,
    nextReview := .str nextReview, reviewCount := reviewCount, createdAt := "2024-01-01",
    tags := [] }

/-- Lower-casing of the letters A to Z, every other character kept: what
`toLowerCase` does on strings of ASCII characters. -/
def asciiToLowerCase (s : String) : String :=
  String.mk (s.data.map fun c =>
    if 65 ≤ c.toNat ∧ c.toNat ≤ 90 then Char.ofNat (c.toNat + 32) else c)

/-- A host like `hostAt` whose store rejects every write. -/
def fullHostAt (tzMinutes : Int) : Host :=
  { now := sampleNow, tzMinutes := tzMinutes, parseOther := fun _ => none,
    accepts := fun _ => false }

/-- A review session showing the first card of the given queue. -/
def sessionOn (queue : List KnowledgePoint) : MyEbbinghausApp :=
  { currentMode := "review", reviewPoints := queue, currentReviewIndex := 0,
    screen := .list }

/-! # Properties -/

open MyEbbinghausApp

/-! ## Calendar lemmas -/

theorem Day_mul_msPerDay (d : Int) : Day (d * msPerDay) = d := by
  unfold Day msPerDay
  omega

theorem Day_add_within (d x : Int) (h0 : 0 ≤ x) (h1 : x < msPerDay) :
    Day (d * msPerDay + x) = d := by
  unfold Day msPerDay at *
  omega

theorem TimeWithinDay_add_within (d x : Int) (h0 : 0 ≤ x) (h1 : x < msPerDay) :
    TimeWithinDay (d * msPerDay + x) = x := by
  unfold TimeWithinDay msPerDay at *
  omega

theorem YearFromTime_day (t : Int) : YearFromTime t = YearFromTime (MakeDate (Day t) 0) := by
  unfold YearFromTime MakeDate
  simp only [add_zero, Day_mul_msPerDay]

theorem DayWithinYear_day (t : Int) :
    DayWithinYear t = DayWithinYear (MakeDate (Day t) 0) := by
  unfold DayWithinYear
  rw [← YearFromTime_day]
  simp only [MakeDate, add_zero, Day_mul_msPerDay]

theorem InLeapYear_day (t : Int) : InLeapYear t = InLeapYear (MakeDate (Day t) 0) := by
  unfold InLeapYear
  rw [← YearFromTime_day]

theorem MonthFromTime_day (t : Int) :
    MonthFromTime t = MonthFromTime (MakeDate (Day t) 0) := by
  unfold MonthFromTime
  rw [← DayWithinYear_day, ← InLeapYear_day]

theorem DateFromTime_day (t : Int) :
    DateFromTime t = DateFromTime (MakeDate (Day t) 0) := by
  unfold DateFromTime
  rw [← DayWithinYear_day, ← InLeapYear_day, ← MonthFromTime_day]

theorem monthOfYearDay_range (d l : Int) :
    0 ≤ monthOfYearDay d l ∧ monthOfYearDay d l ≤ 11 := by
  suffices key : ∀ x, x = monthOfYearDay d l → 0 ≤ x ∧ x ≤ 11 from key _ rfl
  intro x hx
  unfold monthOfYearDay at hx
  by_cases h1 : d < 31
  · rw [if_pos h1] at hx; omega
  rw [if_neg h1] at hx
  by_cases h2 : d < 59 + l
  · rw [if_pos h2] at hx; omega
  rw [if_neg h2] at hx
  by_cases h3 : d < 90 + l
  · rw [if_pos h3] at hx; omega
  rw [if_neg h3] at hx
  by_cases h4 : d < 120 + l
  · rw [if_pos h4] at hx; omega
  rw [if_neg h4] at hx
  by_cases h5 : d < 151 + l
  · rw [if_pos h5] at hx; omega
  rw [if_neg h5] at hx
  by_cases h6 : d < 181 + l
  · rw [if_pos h6] at hx; omega
  rw [if_neg h6] at hx
  by_cases h7 : d < 212 + l
  · rw [if_pos h7] at hx; omega
  rw [if_neg h7] at hx
  by_cases h8 : d < 243 + l
  · rw [if_pos h8] at hx; omega
  rw [if_neg h8] at hx
  by_cases h9 : d < 273 + l
  · rw [if_pos h9] at hx; omega
  rw [if_neg h9] at hx
  by_cases h10 : d < 304 + l
  · rw [if_pos h10] at hx; omega
  rw [if_neg h10] at hx
  by_cases h11 : d < 334 + l
  · rw [if_pos h11] at hx; omega
  rw [if_neg h11] at hx
  omega

theorem MonthFromTime_range (t : Int) : 0 ≤ MonthFromTime t ∧ MonthFromTime t ≤ 11 :=
  monthOfYearDay_range _ _

/-- Rebuilding the day from the calendar fields of `t`, with the day of the
month moved by `k`, is the day of `t` moved by `k`. -/
theorem MakeDay_fields_add (t k : Int) :
    MakeDay (YearFromTime t) (MonthFromTime t) (DateFromTime t + k) = Day t + k := by
  have hr := MonthFromTime_range t
  have hdiv : MonthFromTime t / 12 = 0 := by omega
  have hmod : MonthFromTime t % 12 = MonthFromTime t := by omega
  unfold MakeDay
  simp only [hdiv, hmod, add_zero]
  unfold DateFromTime DayWithinYear InLeapYear
  omega

theorem formatDate_eq_dayString (h : Host) (tv : Int) :
    formatDate h (some tv) = dayString (Day (LocalTime h tv)) := by
  unfold formatDate dayString getFullYear getMonth getDate
  simp only [Option.map_some']
  rw [← YearFromTime_day, ← MonthFromTime_day, ← DateFromTime_day]

theorem MakeDate_day_within (t k : Int) :
    MakeDate (Day t + k) (TimeWithinDay t) = t + k * msPerDay := by
  unfold MakeDate Day TimeWithinDay msPerDay
  omega

/-- In a zone with a fixed offset, `setDate(getDate() + k)` moves the time
value by `k` days. -/
theorem setDate_getDate_add (h : Host) (tv k : Int) :
    setDate h (some tv) (jsAdd (getDate h (some tv)) (some k))
      = TimeClip (tv + k * msPerDay) := by
  simp only [getDate, Option.map_some', jsAdd, setDate]
  rw [MakeDay_fields_add, MakeDate_day_within]
  unfold UTC LocalTime
  congr 1
  omega

theorem TimeClip_of_days (d : Int) (h0 : -100000000 ≤ d) (h1 : d ≤ 100000000) :
    TimeClip (d * msPerDay) = some (d * msPerDay) := by
  unfold TimeClip
  rw [if_pos]
  unfold msPerDay
  omega

/-! ## Parsing lemmas -/

theorem digitValue_le (c : Char) (v : Nat) (hv : digitValue c = some v) : v ≤ 9 := by
  unfold digitValue at hv
  split_ifs at hv with hc
  simp only [Option.some.injEq] at hv
  omega

theorem digitsValue_four (a b c d : Char) (v : Nat)
    (hv : digitsValue [a, b, c, d] = some v) : v ≤ 9999 := by
  unfold digitsValue at hv
  simp only [List.foldl] at hv
  cases ha : digitValue a with
  | none => simp [ha] at hv
  | some x =>
    cases hb : digitValue b with
    | none => simp [ha, hb] at hv
    | some y =>
      cases hc : digitValue c with
      | none => simp [ha, hb, hc] at hv
      | some z =>
        cases hd : digitValue d with
        | none => simp [ha, hb, hc, hd] at hv
        | some w =>
          have hx := digitValue_le a x ha
          have hy := digitValue_le b y hb
          have hz := digitValue_le c z hc
          have hw := digitValue_le d w hd
          simp [ha, hb, hc, hd] at hv
          omega

theorem daysInMonth_le (y : Int) (m : Nat) : daysInMonth y m ≤ 31 := by
  unfold daysInMonth
  split_ifs <;> omega

/-- A string in the date-only form names a year up to 9999, a month from 1
to 12 and a day from 1 to 31. -/
theorem parseDateOnly_bounds (s : String) (y m d : Nat)
    (hp : parseDateOnly s = some (y, m, d)) :
    y ≤ 9999 ∧ 1 ≤ m ∧ m ≤ 12 ∧ 1 ≤ d ∧ d ≤ 31 := by
  unfold parseDateOnly at hp
  split at hp
  · rename_i y1 y2 y3 y4 s1 m1 m2 s2 d1 d2 _
    split_ifs at hp with hdash
    split at hp
    · rename_i y0 m0 d0 hy hmo hd
      split_ifs at hp with hlegal
      simp only [Option.some.injEq, Prod.mk.injEq] at hp
      obtain ⟨rfl, rfl, rfl⟩ := hp
      have h4 := digitsValue_four y1 y2 y3 y4 y0 hy
      have hdm := daysInMonth_le (y0 : Int) m0
      omega
    · cases hp
  · cases hp

theorem monthStart_range (m l : Int) (hl0 : 0 ≤ l) (hl1 : l ≤ 1) :
    0 ≤ monthStart m l ∧ monthStart m l ≤ 335 := by
  suffices key : ∀ x, x = monthStart m l → 0 ≤ x ∧ x ≤ 335 from key _ rfl
  intro x hx
  unfold monthStart at hx
  by_cases h0 : m = 0
  · rw [if_pos h0] at hx; omega
  rw [if_neg h0] at hx
  by_cases h1 : m = 1
  · rw [if_pos h1] at hx; omega
  rw [if_neg h1] at hx
  by_cases h2 : m = 2
  · rw [if_pos h2] at hx; omega
  rw [if_neg h2] at hx
  by_cases h3 : m = 3
  · rw [if_pos h3] at hx; omega
  rw [if_neg h3] at hx
  by_cases h4 : m = 4
  · rw [if_pos h4] at hx; omega
  rw [if_neg h4] at hx
  by_cases h5 : m = 5
  · rw [if_pos h5] at hx; omega
  rw [if_neg h5] at hx
  by_cases h6 : m = 6
  · rw [if_pos h6] at hx; omega
  rw [if_neg h6] at hx
  by_cases h7 : m = 7
  · rw [if_pos h7] at hx; omega
  rw [if_neg h7] at hx
  by_cases h8 : m = 8
  · rw [if_pos h8] at hx; omega
  rw [if_neg h8] at hx
  by_cases h9 : m = 9
  · rw [if_pos h9] at hx; omega
  rw [if_neg h9] at hx
  by_cases h10 : m = 10
  · rw [if_pos h10] at hx; omega
  rw [if_neg h10] at hx
  omega

/-- Day numbers of the dates a date-only string can name stay far inside the
range of time values. -/
theorem dayNumber_bounds (y m d : Nat) (hy : y ≤ 9999) (hm1 : 1 ≤ m) (hm : m ≤ 12)
    (hd : d ≤ 31) : -1000000 ≤ dayNumber y m d ∧ dayNumber y m d ≤ 3000000 := by
  unfold dayNumber MakeDay
  have hdiv : ((m - 1 : Nat) : Int) / 12 = 0 := by omega
  simp only [hdiv, add_zero]
  generalize hleap : (if DaysInYear (y : Int) = 366 then (1 : Int) else 0) = leap
  have hl : 0 ≤ leap ∧ leap ≤ 1 := by
    rw [← hleap]; split_ifs <;> omega
  have hms := monthStart_range (((m - 1 : Nat) : Int) % 12) leap hl.1 hl.2
  unfold DayFromYear
  omega

theorem intervalFor_some (level : String) (n k : Nat) (hk : intervalFor level n = some k) :
    level ∈ MASTERY_LEVELS ∧ k ≤ 30 := by
  unfold intervalFor REVIEW_INTERVALS at hk
  by_cases h1 : level = "mastered"
  · rw [if_pos h1] at hk
    have hmem := List.get?_mem hk
    simp only [List.mem_cons, List.mem_singleton] at hmem
    refine ⟨by simp [MASTERY_LEVELS, h1], ?_⟩
    rcases hmem with h | h | h | h | h | h <;> first | omega | cases h
  rw [if_neg h1] at hk
  by_cases h2 : level = "learning"
  · rw [if_pos h2] at hk
    have hmem := List.get?_mem hk
    simp only [List.mem_cons, List.mem_singleton] at hmem
    refine ⟨by simp [MASTERY_LEVELS, h2], ?_⟩
    rcases hmem with h | h | h | h | h | h <;> first | omega | cases h
  rw [if_neg h2] at hk
  by_cases h3 : level = "struggling"
  · rw [if_pos h3] at hk
    have hmem := List.get?_mem hk
    simp only [List.mem_cons, List.mem_singleton] at hmem
    refine ⟨by simp [MASTERY_LEVELS, h3], ?_⟩
    rcases hmem with h | h | h | h | h | h <;> first | omega | cases h
  rw [if_neg h3] at hk
  split_ifs at hk

/-! ## The calendar functions are correct, and date strings read back -/

theorem DayFromYear_near_mean (y : Int) :
    146097 * (y - 1970) - 506 ≤ 400 * DayFromYear y ∧
      400 * DayFromYear y ≤ 146097 * (y - 1970) + 589 := by
  unfold DayFromYear
  omega

theorem DayFromYear_succ (y : Int) : DayFromYear (y + 1) = DayFromYear y + DaysInYear y := by
  unfold DayFromYear DaysInYear
  split_ifs <;> omega

theorem YearFromTime_eq (t : Int) :
    YearFromTime t =
      if DayFromYear (1970 + Day t * 400 / 146097 + 1) ≤ Day t then
        1970 + Day t * 400 / 146097 + 1
      else if Day t < DayFromYear (1970 + Day t * 400 / 146097) then
        1970 + Day t * 400 / 146097 - 1
      else 1970 + Day t * 400 / 146097 := rfl

/-- `YearFromTime` meets its definition in ECMA-262: the year found starts
on or before the day of `t`, and the next year starts after it. -/
theorem YearFromTime_spec (t : Int) :
    DayFromYear (YearFromTime t) ≤ Day t ∧ Day t < DayFromYear (YearFromTime t + 1) := by
  rw [YearFromTime_eq]
  generalize Day t = d
  generalize hy : 1970 + d * 400 / 146097 = y
  have b1 := DayFromYear_near_mean (y + 1 + 1)
  have b2 := DayFromYear_near_mean (y - 1)
  have e2 : y - 1 + 1 = y := by ring
  by_cases h1 : DayFromYear (y + 1) ≤ d
  · rw [if_pos h1]
    exact ⟨h1, by omega⟩
  · rw [if_neg h1]
    by_cases h2 : d < DayFromYear y
    · rw [if_pos h2, e2]
      exact ⟨by omega, h2⟩
    · rw [if_neg h2]
      exact ⟨by omega, by omega⟩

theorem month_day_legal (Y d l : Int) (hl : l = if DaysInYear Y = 366 then 1 else 0)
    (h0 : 0 ≤ d) (h1 : d < 365 + l) :
    0 ≤ monthOfYearDay d l ∧ monthOfYearDay d l ≤ 11 ∧
      1 ≤ d - monthStart (monthOfYearDay d l) l + 1 ∧
      d - monthStart (monthOfYearDay d l) l + 1
        ≤ daysInMonth Y (monthOfYearDay d l + 1).toNat := by
  have hfeb : (daysInMonth Y 2 : Int) = 28 + l := by
    unfold daysInMonth
    rw [if_pos rfl, hl]
    split_ifs <;> rfl
  have hl01 : 0 ≤ l ∧ l ≤ 1 := by
    rw [hl]
    split_ifs <;> omega
  generalize hM : monthOfYearDay d l = M
  unfold monthOfYearDay at hM
  by_cases c0 : d < 31
  · rw [if_pos c0] at hM
    subst hM
    have hs : monthStart 0 l = 0 := rfl
    have hd : (daysInMonth Y ((0 : Int) + 1).toNat : Int) = 31 := rfl
    rw [hs]
    refine ⟨by omega, by omega, by omega, ?_⟩
    have hgoal : d - (0) + 1 ≤ (daysInMonth Y ((0 : Int) + 1).toNat : Int) := by
      rw [hd]
      omega
    exact hgoal
  rw [if_neg c0] at hM
  by_cases c1 : d < 59 + l
  · rw [if_pos c1] at hM
    subst hM
    have hs : monthStart 1 l = 31 := rfl
    have hd : (daysInMonth Y ((1 : Int) + 1).toNat : Int) = 28 + l := hfeb
    rw [hs]
    refine ⟨by omega, by omega, by omega, ?_⟩
    have hgoal : d - (31) + 1 ≤ (daysInMonth Y ((1 : Int) + 1).toNat : Int) := by
      rw [hd]
      omega
    exact hgoal
  rw [if_neg c1] at hM
  by_cases c2 : d < 90 + l
  · rw [if_pos c2] at hM
    subst hM
    have hs : monthStart 2 l = 59 + l := rfl
    have hd : (daysInMonth Y ((2 : Int) + 1).toNat : Int) = 31 := rfl
    rw [hs]
    refine ⟨by omega, by omega, by omega, ?_⟩
    have hgoal : d - (59 + l) + 1 ≤ (daysInMonth Y ((2 : Int) + 1).toNat : Int) := by
      rw [hd]
      omega
    exact hgoal
  rw [if_neg c2] at hM
  by_cases c3 : d < 120 + l
  · rw [if_pos c3] at hM
    subst hM
    have hs : monthStart 3 l = 90 + l := rfl
    have hd : (daysInMonth Y ((3 : Int) + 1).toNat : Int) = 30 := rfl
    rw [hs]
    refine ⟨by omega, by omega, by omega, ?_⟩
    have hgoal : d - (90 + l) + 1 ≤ (daysInMonth Y ((3 : Int) + 1).toNat : Int) := by
      rw [hd]
      omega
    exact hgoal
  rw [if_neg c3] at hM
  by_cases c4 : d < 151 + l
  · rw [if_pos c4] at hM
    subst hM
    have hs : monthStart 4 l = 120 + l := rfl
    have hd : (daysInMonth Y ((4 : Int) + 1).toNat : Int) = 31 := rfl
    rw [hs]
    refine ⟨by omega, by omega, by omega, ?_⟩
    have hgoal : d - (120 + l) + 1 ≤ (daysInMonth Y ((4 : Int) + 1).toNat : Int) := by
      rw [hd]
      omega
    exact hgoal
  rw [if_neg c4] at hM
  by_cases c5 : d < 181 + l
  · rw [if_pos c5] at hM
    subst hM
    have hs : monthStart 5 l = 151 + l := rfl
    have hd : (daysInMonth Y ((5 : Int) + 1).toNat : Int) = 30 := rfl
    rw [hs]
    refine ⟨by omega, by omega, by omega, ?_⟩
    have hgoal : d - (151 + l) + 1 ≤ (daysInMonth Y ((5 : Int) + 1).toNat : Int) := by
      rw [hd]
      omega
    exact hgoal
  rw [if_neg c5] at hM
  by_cases c6 : d < 212 + l
  · rw [if_pos c6] at hM
    subst hM
    have hs : monthStart 6 l = 181 + l := rfl
    have hd : (daysInMonth Y ((6 : Int) + 1).toNat : Int) = 31 := rfl
    rw [hs]
    refine ⟨by omega, by omega, by omega, ?_⟩
    have hgoal : d - (181 + l) + 1 ≤ (daysInMonth Y ((6 : Int) + 1).toNat : Int) := by
      rw [hd]
      omega
    exact hgoal
  rw [if_neg c6] at hM
  by_cases c7 : d < 243 + l
  · rw [if_pos c7] at hM
    subst hM
    have hs : monthStart 7 l = 212 + l := rfl
    have hd : (daysInMonth Y ((7 : Int) + 1).toNat : Int) = 31 := rfl
    rw [hs]
    refine ⟨by omega, by omega, by omega, ?_⟩
    have hgoal : d - (212 + l) + 1 ≤ (daysInMonth Y ((7 : Int) + 1).toNat : Int) := by
      rw [hd]
      omega
    exact hgoal
  rw [if_neg c7] at hM
  by_cases c8 : d < 273 + l
  · rw [if_pos c8] at hM
    subst hM
    have hs : monthStart 8 l = 243 + l := rfl
    have hd : (daysInMonth Y ((8 : Int) + 1).toNat : Int) = 30 := rfl
    rw [hs]
    refine ⟨by omega, by omega, by omega, ?_⟩
    have hgoal : d - (243 + l) + 1 ≤ (daysInMonth Y ((8 : Int) + 1).toNat : Int) := by
      rw [hd]
      omega
    exact hgoal
  rw [if_neg c8] at hM
  by_cases c9 : d < 304 + l
  · rw [if_pos c9] at hM
    subst hM
    have hs : monthStart 9 l = 273 + l := rfl
    have hd : (daysInMonth Y ((9 : Int) + 1).toNat : Int) = 31 := rfl
    rw [hs]
    refine ⟨by omega, by omega, by omega, ?_⟩
    have hgoal : d - (273 + l) + 1 ≤ (daysInMonth Y ((9 : Int) + 1).toNat : Int) := by
      rw [hd]
      omega
    exact hgoal
  rw [if_neg c9] at hM
  by_cases c10 : d < 334 + l
  · rw [if_pos c10] at hM
    subst hM
    have hs : monthStart 10 l = 304 + l := rfl
    have hd : (daysInMonth Y ((10 : Int) + 1).toNat : Int) = 30 := rfl
    rw [hs]
    refine ⟨by omega, by omega, by omega, ?_⟩
    have hgoal : d - (304 + l) + 1 ≤ (daysInMonth Y ((10 : Int) + 1).toNat : Int) := by
      rw [hd]
      omega
    exact hgoal
  rw [if_neg c10] at hM
  subst hM
  have hs : monthStart 11 l = 334 + l := rfl
  have hd : (daysInMonth Y ((11 : Int) + 1).toNat : Int) = 31 := rfl
  rw [hs]
  refine ⟨by omega, by omega, by omega, ?_⟩
  have hgoal : d - (334 + l) + 1 ≤ (daysInMonth Y ((11 : Int) + 1).toNat : Int) := by
    rw [hd]
    omega
  exact hgoal

theorem digitValue_digitChar (k : Nat) (hk : k < 10) : digitValue (digitChar k) = some k := by
  interval_cases k <;> rfl

theorem natDigits_succ (fuel n : Nat) :
    natDigits (fuel + 1) n
      = if n < 10 then [digitChar n] else natDigits fuel (n / 10) ++ [digitChar (n % 10)] :=
  rfl

theorem natDigits_four (n : Nat) (h0 : 1000 ≤ n) (h1 : n ≤ 9999) :
    natDigits (n + 1) n
      = [digitChar (n / 10 / 10 / 10), digitChar (n / 10 / 10 % 10),
         digitChar (n / 10 % 10), digitChar (n % 10)] := by
  obtain ⟨f, hf⟩ : ∃ f, n + 1 = f + 1 + 1 + 1 + 1 := ⟨n - 3, by omega⟩
  rw [hf, natDigits_succ, if_neg (by omega), natDigits_succ, if_neg (by omega),
    natDigits_succ, if_neg (by omega), natDigits_succ, if_pos (by omega)]
  rfl

theorem digitsValue_digits_four (a b c d : Nat) (ha : a < 10) (hb : b < 10) (hc : c < 10)
    (hd : d < 10) :
    digitsValue [digitChar a, digitChar b, digitChar c, digitChar d]
      = some (10 * (10 * (10 * (10 * 0 + a) + b) + c) + d) := by
  unfold digitsValue
  simp only [List.foldl, digitValue_digitChar a ha, digitValue_digitChar b hb,
    digitValue_digitChar c hc, digitValue_digitChar d hd]

theorem digitsValue_digits_two (a b : Nat) (ha : a < 10) (hb : b < 10) :
    digitsValue [digitChar a, digitChar b] = some (10 * (10 * 0 + a) + b) := by
  unfold digitsValue
  simp only [List.foldl, digitValue_digitChar a ha, digitValue_digitChar b hb]

theorem padStart2_two (n : Nat) (h1 : n ≤ 31) :
    (padStart2 (numberToString (some (n : Int)))).data = [digitChar (n / 10), digitChar (n % 10)] := by
  interval_cases n <;> rfl

theorem numberToString_four (n : Nat) (h0 : 1000 ≤ n) (h1 : n ≤ 9999) :
    (numberToString (some (n : Int))).data
      = [digitChar (n / 10 / 10 / 10), digitChar (n / 10 / 10 % 10),
         digitChar (n / 10 % 10), digitChar (n % 10)] := by
  have hstr : numberToString (some (n : Int))
      = String.mk (natDigits ((n : Int).natAbs + 1) (n : Int).natAbs) := by
    simp only [numberToString]
    rw [if_neg (by omega)]
  rw [hstr]
  simp only [Int.natAbs_ofNat]
  exact natDigits_four n h0 h1

theorem dayString_data (D : Int) (y m dd : Nat)
    (hy : YearFromTime (MakeDate D 0) = y) (hm : MonthFromTime (MakeDate D 0) + 1 = m)
    (hd : DateFromTime (MakeDate D 0) = dd)
    (hy0 : 1000 ≤ y) (hy1 : y ≤ 9999) (hm1 : m ≤ 31) (hd1 : dd ≤ 31) :
    (dayString D).data
      = [digitChar (y / 10 / 10 / 10), digitChar (y / 10 / 10 % 10),
         digitChar (y / 10 % 10), digitChar (y % 10), '-',
         digitChar (m / 10), digitChar (m % 10), '-',
         digitChar (dd / 10), digitChar (dd % 10)] := by
  unfold dayString
  simp only [hy, hm, hd, String.data_append, numberToString_four y hy0 hy1,
    padStart2_two m hm1, padStart2_two dd hd1]
  rfl

theorem parseDateOnly_of_data (s : String) (y m dd : Nat)
    (hy0 : 1000 ≤ y) (hy1 : y ≤ 9999) (hm0 : 1 ≤ m) (hm1 : m ≤ 12) (hd0 : 1 ≤ dd)
    (hd1 : dd ≤ daysInMonth y m)
    (hs : s.data
      = [digitChar (y / 10 / 10 / 10), digitChar (y / 10 / 10 % 10),
         digitChar (y / 10 % 10), digitChar (y % 10), '-',
         digitChar (m / 10), digitChar (m % 10), '-',
         digitChar (dd / 10), digitChar (dd % 10)]) :
    parseDateOnly s = some (y, m, dd) := by
  have hdim := daysInMonth_le (y : Int) m
  unfold parseDateOnly
  rw [hs]
  simp only [and_self, if_true]
  rw [digitsValue_digits_four _ _ _ _ (by omega) (by omega) (by omega) (by omega),
    digitsValue_digits_two _ _ (by omega) (by omega),
    digitsValue_digits_two _ _ (by omega) (by omega)]
  have e1 : 10 * (10 * (10 * (10 * 0 + y / 10 / 10 / 10) + y / 10 / 10 % 10) + y / 10 % 10)
      + y % 10 = y := by omega
  have e2 : 10 * (10 * 0 + m / 10) + m % 10 = m := by omega
  have e3 : 10 * (10 * 0 + dd / 10) + dd % 10 = dd := by omega
  simp only [e1, e2, e3]
  rw [if_pos ⟨hm0, hm1, hd0, hd1⟩]

theorem DaysInYear_eq (y : Int) :
    DaysInYear y = 365 + (if DaysInYear y = 366 then 1 else 0) := by
  unfold DaysInYear
  split_ifs <;> omega

/-- The calendar fields of a day are a legal date: the day of the month lies
within the month found. -/
theorem calendar_fields_legal (t : Int) :
    0 ≤ MonthFromTime t ∧ MonthFromTime t ≤ 11 ∧ 1 ≤ DateFromTime t ∧
      DateFromTime t ≤ daysInMonth (YearFromTime t) (MonthFromTime t + 1).toNat := by
  obtain ⟨hlo, hhi⟩ := YearFromTime_spec t
  rw [DayFromYear_succ, DaysInYear_eq] at hhi
  have hleg := month_day_legal (YearFromTime t) (DayWithinYear t) (InLeapYear t) rfl
    (by unfold DayWithinYear; omega) (by unfold DayWithinYear InLeapYear; omega)
  exact hleg

/-- Writing a day number as a date string and reading the string back gives
the fields of a date whose day number is the one started from (years 1000
to 9999, which are written with four digits). -/
theorem parseDateOnly_dayString (D : Int)
    (hY0 : 1000 ≤ YearFromTime (MakeDate D 0)) (hY1 : YearFromTime (MakeDate D 0) ≤ 9999) :
    ∃ y m dd : Nat, parseDateOnly (dayString D) = some (y, m, dd) ∧ dayNumber y m dd = D := by
  obtain ⟨hm0, hm11, hd1, hdmax⟩ := calendar_fields_legal (MakeDate D 0)
  have hdim := daysInMonth_le (YearFromTime (MakeDate D 0))
    (MonthFromTime (MakeDate D 0) + 1).toNat
  have hy : YearFromTime (MakeDate D 0) = ((YearFromTime (MakeDate D 0)).toNat : Int) := by
    omega
  have hm : MonthFromTime (MakeDate D 0) + 1
      = (((MonthFromTime (MakeDate D 0)) + 1).toNat : Int) := by omega
  have hd : DateFromTime (MakeDate D 0) = ((DateFromTime (MakeDate D 0)).toNat : Int) := by
    omega
  refine ⟨(YearFromTime (MakeDate D 0)).toNat, (MonthFromTime (MakeDate D 0) + 1).toNat,
    (DateFromTime (MakeDate D 0)).toNat, ?_, ?_⟩
  · apply parseDateOnly_of_data
    · omega
    · omega
    · omega
    · omega
    · omega
    · rw [← hy]; omega
    · exact dayString_data D _ _ _ hy hm hd (by omega) (by omega) (by omega) (by omega)
  · unfold dayNumber
    have hm' : (((MonthFromTime (MakeDate D 0) + 1).toNat - 1 : Nat) : Int)
        = MonthFromTime (MakeDate D 0) := by omega
    rw [← hy, hm', ← hd]
    have hadd := MakeDay_fields_add (MakeDate D 0) 0
    rw [add_zero, add_zero] at hadd
    rw [hadd]
    unfold MakeDate
    rw [add_zero, Day_mul_msPerDay]

/-! ## What `calculateNextReviewDate` computes -/

theorem dateParse_of_dateOnly (h : Host) (s : String) (y m d : Nat)
    (hp : parseDateOnly s = some (y, m, d)) :
    dateParse h s = some (dayNumber y m d * msPerDay) := by
  obtain ⟨hy, hm1, hm12, _, hd31⟩ := parseDateOnly_bounds s y m d hp
  obtain ⟨hb0, hb1⟩ := dayNumber_bounds y m d hy hm1 hm12 hd31
  unfold dateParse
  rw [hp]
  show TimeClip (MakeDate (dayNumber y m d) 0) = _
  unfold MakeDate
  rw [add_zero]
  exact TimeClip_of_days _ (by omega) (by omega)

/-- For a level with table entry `k` at this review count and an anchor
string naming the date `y`-`m`-`dd`, the scheduler returns the date of day
number `dayNumber y m dd + k + Day (offset)`: the offset term is 0 for a zone
at or east of UTC (below +24h) and -1 for a zone west of UTC. -/
theorem calculateNextReviewDate_eq (h : Host) (level d : String) (n k y m dd : Nat)
    (hk : intervalFor level n = some k) (hp : parseDateOnly d = some (y, m, dd)) :
    calculateNextReviewDate h (.str level) (.str d) n
      = .ok (dayString (dayNumber y m dd + k + Day (h.tzMinutes * msPerMinute))) := by
  obtain ⟨hlevel, hk30⟩ := intervalFor_some level n k hk
  obtain ⟨hy, hm1, hm12, _, hd31⟩ := parseDateOnly_bounds d y m dd hp
  obtain ⟨hb0, hb1⟩ := dayNumber_bounds y m dd hy hm1 hm12 hd31
  have hlevel_ne : level ≠ "" := by
    rintro rfl
    revert hlevel
    decide
  have hd_ne : d ≠ "" := by
    rintro rfl
    have hnone : parseDateOnly "" = none := rfl
    rw [hnone] at hp
    cases hp
  unfold intervalFor at hk
  unfold calculateNextReviewDate
  simp only [JsStr.truthy, hlevel_ne, hd_ne, ne_eq, not_false_eq_true, decide_True,
    Bool.not_true, Bool.or_self, Bool.false_eq_true, if_false]
  split at hk
  · rename_i intervals hlookup
    rw [hlookup]
    simp only [hk, Option.map_some', newDate]
    rw [dateParse_of_dateOnly h d y m dd hp, setDate_getDate_add]
    have hsum : dayNumber y m dd * msPerDay + Int.ofNat k * msPerDay
        = (dayNumber y m dd + k) * msPerDay := by
      simp only [Int.ofNat_eq_coe]
      ring
    rw [hsum, TimeClip_of_days _ (by omega) (by omega), formatDate_eq_dayString]
    congr 2
    unfold LocalTime Day
    generalize h.tzMinutes * msPerMinute = x
    unfold msPerDay
    omega
  · cases hk

theorem Day_offset_east (tz : Int) (h0 : 0 ≤ tz) (h1 : tz < 1440) :
    Day (tz * msPerMinute) = 0 := by
  unfold Day msPerMinute msPerDay
  omega

theorem Day_offset_west (tz : Int) (h0 : -1440 ≤ tz) (h1 : tz < 0) :
    Day (tz * msPerMinute) = -1 := by
  unfold Day msPerMinute msPerDay
  omega

theorem formatDate_ne_empty (h : Host) (date : JsDate) : formatDate h date ≠ "" := by
  intro hEq
  have hlen := congrArg String.length hEq
  unfold formatDate at hlen
  simp only [String.length_append] at hlen
  have h1 : ("-" : String).length = 1 := rfl
  have h0 : ("" : String).length = 0 := rfl
  omega

theorem getTodayString_ne_empty (h : Host) : getTodayString h ≠ "" :=
  formatDate_ne_empty h _

/-- For a mastery level and a non-empty anchor string the scheduler returns a
string: it does not throw. -/
theorem calculateNextReviewDate_ok (h : Host) (level d : String) (n : Nat)
    (hl : level ∈ MASTERY_LEVELS) (hd : d ≠ "") :
    ∃ r, calculateNextReviewDate h (.str level) (.str d) n = .ok r := by
  have hlevel_ne : level ≠ "" := by
    rintro rfl
    revert hl
    decide
  unfold calculateNextReviewDate
  simp only [JsStr.truthy, hlevel_ne, hd, ne_eq, not_false_eq_true, decide_True,
    Bool.not_true, Bool.or_self, Bool.false_eq_true, if_false]
  simp only [MASTERY_LEVELS, List.mem_cons, List.mem_singleton, List.not_mem_nil,
    or_false] at hl
  rcases hl with rfl | rfl | rfl
  · exact ⟨_, rfl⟩
  · exact ⟨_, rfl⟩
  · exact ⟨_, rfl⟩

/-- At or east of UTC the result is the date `k` days after the anchor. -/
theorem calculateNextReviewDate_east (h : Host) (level d : String) (n k y m dd : Nat)
    (hk : intervalFor level n = some k) (hp : parseDateOnly d = some (y, m, dd))
    (h0 : 0 ≤ h.tzMinutes) (h1 : h.tzMinutes < 1440) :
    calculateNextReviewDate h (.str level) (.str d) n
      = .ok (dayString (dayNumber y m dd + k)) := by
  rw [calculateNextReviewDate_eq h level d n k y m dd hk hp, Day_offset_east _ h0 h1,
    add_zero]

/-- West of UTC the result is the date `k - 1` days after the anchor. -/
theorem calculateNextReviewDate_west (h : Host) (level d : String) (n k y m dd : Nat)
    (hk : intervalFor level n = some k) (hp : parseDateOnly d = some (y, m, dd))
    (h0 : -1440 ≤ h.tzMinutes) (h1 : h.tzMinutes < 0) :
    calculateNextReviewDate h (.str level) (.str d) n
      = .ok (dayString (dayNumber y m dd + k - 1)) := by
  rw [calculateNextReviewDate_eq h level d n k y m dd hk hp, Day_offset_west _ h0 h1]
  rfl

/-- The table entry used is the one at index `min n 4`: from review count 4
on it is the last entry. -/
theorem intervalFor_sticky (level : String) (n : Nat) (hn : 4 ≤ n) :
    intervalFor level n = intervalFor level 4 := by
  have key : ∀ xs : List Nat, xs.length = 5 →
      xs.get? (min n (xs.length - 1)) = xs.get? (min 4 (xs.length - 1)) := by
    intro xs hx
    rw [hx]
    congr 1
    omega
  unfold intervalFor
  by_cases h1 : level = "mastered"
  · subst h1
    exact key _ rfl
  by_cases h2 : level = "learning"
  · subst h2
    exact key _ rfl
  by_cases h3 : level = "struggling"
  · subst h3
    exact key _ rfl
  unfold REVIEW_INTERVALS
  simp only [h1, h2, h3, if_false]
  split_ifs <;> rfl

/-- From review count 4 on the scheduler returns what it returns at 4, in
every host and for every level and anchor. -/
theorem calculateNextReviewDate_sticky (h : Host) (level anchor : JsStr) (n : Nat)
    (hn : 4 ≤ n) :
    calculateNextReviewDate h level anchor n = calculateNextReviewDate h level anchor 4 := by
  have key : ∀ xs : List Nat, xs.length = 5 →
      xs.get? (min n (xs.length - 1)) = xs.get? (min 4 (xs.length - 1)) := by
    intro xs hx
    rw [hx]
    congr 1
    omega
  unfold calculateNextReviewDate
  split
  · rfl
  · cases level with
    | undefined => rfl
    | null => rfl
    | str lv =>
      by_cases h1 : lv = "mastered"
      · subst h1
        simp only [show REVIEW_INTERVALS "mastered" = .array [1, 3, 7, 15, 30] from rfl,
          key [1, 3, 7, 15, 30] rfl]
      by_cases h2 : lv = "learning"
      · subst h2
        simp only [show REVIEW_INTERVALS "learning" = .array [1, 2, 4, 8, 16] from rfl,
          key [1, 2, 4, 8, 16] rfl]
      by_cases h3 : lv = "struggling"
      · subst h3
        simp only [show REVIEW_INTERVALS "struggling" = .array [0, 1, 2, 4, 8] from rfl,
          key [0, 1, 2, 4, 8] rfl]
      have hlook : REVIEW_INTERVALS lv = .inherited ∨ REVIEW_INTERVALS lv = .undefined := by
        unfold REVIEW_INTERVALS
        simp only [h1, h2, h3, if_false]
        split_ifs
        · exact Or.inl rfl
        · exact Or.inr rfl
      rcases hlook with hl | hl <;> simp only [hl]

theorem DayFromYear_mono (y y' : Int) (hyy : y ≤ y') : DayFromYear y ≤ DayFromYear y' := by
  unfold DayFromYear
  omega

/-- Days from 1000-01-01 to 9999-12-31 lie in years 1000 to 9999. -/
theorem YearFromTime_of_day_range (D : Int) (h0 : -354285 ≤ D) (h1 : D ≤ 2932896) :
    1000 ≤ YearFromTime (MakeDate D 0) ∧ YearFromTime (MakeDate D 0) ≤ 9999 := by
  obtain ⟨hlo, hhi⟩ := YearFromTime_spec (MakeDate D 0)
  have hD : Day (MakeDate D 0) = D := by
    unfold MakeDate
    rw [add_zero, Day_mul_msPerDay]
  rw [hD] at hlo hhi
  have e1 : DayFromYear 1000 = -354285 := rfl
  have e2 : DayFromYear 10000 = 2932897 := rfl
  constructor
  · by_contra hlt
    have hmono := DayFromYear_mono (YearFromTime (MakeDate D 0) + 1) 1000 (by omega)
    omega
  · by_contra hgt
    have hmono := DayFromYear_mono 10000 (YearFromTime (MakeDate D 0)) (by omega)
    omega

/-- For an anchor written as the date of day number `D` (years 1000 to 9999)
and a level with table entry `k` at this review count, the scheduler returns
the date of day number `D + k + Day (offset)`. -/
theorem calculateNextReviewDate_of_day (h : Host) (level : String) (n k : Nat) (D : Int)
    (hk : intervalFor level n = some k) (h0 : -354285 ≤ D) (h1 : D ≤ 2932896) :
    calculateNextReviewDate h (.str level) (.str (dayString D)) n
      = .ok (dayString (D + k + Day (h.tzMinutes * msPerMinute))) := by
  obtain ⟨hY0, hY1⟩ := YearFromTime_of_day_range D h0 h1
  obtain ⟨y, m, dd, hp, hnum⟩ := parseDateOnly_dayString D hY0 hY1
  rw [calculateNextReviewDate_eq h level (dayString D) n k y m dd hk hp, hnum]

/-- At or east of UTC, the scheduler returns the date exactly `k` days after
the anchor date, `k` being the table entry at index `min n 4`. -/
theorem calculateNextReviewDate_adds_interval_east (h : Host) (level : String) (n k : Nat)
    (D : Int) (hk : intervalFor level n = some k) (h0 : -354285 ≤ D) (h1 : D ≤ 2932896)
    (hz0 : 0 ≤ h.tzMinutes) (hz1 : h.tzMinutes < 1440) :
    calculateNextReviewDate h (.str level) (.str (dayString D)) n
      = .ok (dayString (D + k)) := by
  rw [calculateNextReviewDate_of_day h level n k D hk h0 h1, Day_offset_east _ hz0 hz1,
    add_zero]

/-- West of UTC, the scheduler returns the date `k - 1` days after the anchor date. -/
theorem calculateNextReviewDate_one_day_early_west (h : Host) (level : String) (n k : Nat)
    (D : Int) (hk : intervalFor level n = some k) (h0 : -354285 ≤ D) (h1 : D ≤ 2932896)
    (hz0 : -1440 ≤ h.tzMinutes) (hz1 : h.tzMinutes < 0) :
    calculateNextReviewDate h (.str level) (.str (dayString D)) n
      = .ok (dayString (D + k - 1)) := by
  rw [calculateNextReviewDate_of_day h level n k D hk h0 h1, Day_offset_west _ hz0 hz1]
  rfl

theorem getTodayString_eq_dayString (h : Host) :
    getTodayString h = dayString (Day (LocalTime h h.now)) :=
  formatDate_eq_dayString h h.now

/-! ## Store lemmas -/

theorem findIndex_none_of_absent (id : String) (points : List KnowledgePoint)
    (hid : ∀ q ∈ points, q.id ≠ id) : findIndex id points = none := by
  induction points with
  | nil => rfl
  | cons q rest ih =>
    have hq : q.id ≠ id := hid q (List.mem_cons_self q rest)
    have hrest : ∀ r ∈ rest, r.id ≠ id := fun r hr => hid r (List.mem_cons_of_mem q hr)
    simp [findIndex, hq, ih hrest]

theorem findIndex_first (p : KnowledgePoint) (pre post : List KnowledgePoint)
    (hfirst : ∀ q ∈ pre, q.id ≠ p.id) :
    findIndex p.id (pre ++ p :: post) = some pre.length := by
  induction pre with
  | nil => simp [findIndex]
  | cons q rest ih =>
    have hq : q.id ≠ p.id := hfirst q (List.mem_cons_self q rest)
    have hrest : ∀ r ∈ rest, r.id ≠ p.id := fun r hr => hfirst r (List.mem_cons_of_mem q hr)
    simp [findIndex, hq, ih hrest]

theorem get?_first (p : KnowledgePoint) (pre post : List KnowledgePoint) :
    (pre ++ p :: post).get? pre.length = some p := by
  induction pre with
  | nil => rfl
  | cons q rest ih => simpa using ih

theorem set_first (p p' : KnowledgePoint) (pre post : List KnowledgePoint) :
    (pre ++ p :: post).set pre.length p' = pre ++ p' :: post := by
  induction pre with
  | nil => rfl
  | cons q rest ih => simp [ih]

/-! ## Store and session: general behaviour -/

/-- When the update object carries a non-empty mastery level other than the
stored one, an explicit `nextReview` in it has no effect: the call behaves
as if the property were absent. -/
theorem updateKnowledgePoint_ignores_explicit_nextReview (h : Host)
    (pre post : List KnowledgePoint) (p : KnowledgePoint) (updates : Updates)
    (m' : String) (v : JsStr) (hfirst : ∀ q ∈ pre, q.id ≠ p.id)
    (hlevel : updates.masteryLevel = some m') (hm : m' ≠ "") (hne : m' ≠ p.masteryLevel) :
    updateKnowledgePoint h p.id { updates with nextReview := some v }
        (.array (pre ++ p :: post))
      = updateKnowledgePoint h p.id { updates with nextReview := none }
        (.array (pre ++ p :: post)) := by
  unfold updateKnowledgePoint
  simp only [loadKnowledgePoints, findIndex_first p pre post hfirst, get?_first, hlevel,
    hm, hne, ne_eq, not_false_eq_true, and_self, if_true]

/-- Grading `failure` on a mastered or learning point: the stored review date
is the one `updateKnowledgePoint` recomputes from the demoted level and the
review count the point had before the grade, while the stored count is 0. -/
theorem markReviewResult_failure_on_demotion (h : Host) (a : MyEbbinghausApp)
    (pre post : List KnowledgePoint) (p : KnowledgePoint)
    (hcur : a.reviewPoints.get? a.currentReviewIndex = some p)
    (hfirst : ∀ q ∈ pre, q.id ≠ p.id)
    (hm : p.masteryLevel = "mastered" ∨ p.masteryLevel = "learning") :
    ∃ d, calculateNextReviewDate h (.str (processReviewResult p.masteryLevel "failure"))
          (.str (getTodayString h)) p.reviewCount = .ok d ∧
      (h.accepts (pre ++ { p with masteryLevel := processReviewResult p.masteryLevel "failure",
                                  nextReview := .str d, reviewCount := 0 } :: post) = true →
        (MyEbbinghausApp.markReviewResult h "failure" a (.array (pre ++ p :: post))).map
            Prod.snd
          = .ok (.array (pre ++ { p with
                    masteryLevel := processReviewResult p.masteryLevel "failure",
                    nextReview := .str d, reviewCount := 0 } :: post))) := by
  have hnew : processReviewResult p.masteryLevel "failure" ∈ MASTERY_LEVELS ∧
      processReviewResult p.masteryLevel "failure" ≠ "" ∧
      processReviewResult p.masteryLevel "failure" ≠ p.masteryLevel := by
    rcases hm with hm | hm <;> rw [hm] <;> decide
  obtain ⟨hvalid, hne0, hne⟩ := hnew
  obtain ⟨d, hd⟩ := calculateNextReviewDate_ok h _ (getTodayString h) p.reviewCount hvalid
    (getTodayString_ne_empty h)
  obtain ⟨d0, hd0⟩ := calculateNextReviewDate_ok h _ (getTodayString h) 0 hvalid
    (getTodayString_ne_empty h)
  refine ⟨d, hd, ?_⟩
  intro hacc
  unfold MyEbbinghausApp.markReviewResult MyEbbinghausApp.reviewUpdateData
  simp only [hcur, if_neg (show ¬("failure" = "success") by decide), hd0]
  unfold updateKnowledgePoint
  simp only [loadKnowledgePoints, findIndex_first p pre post hfirst, get?_first,
    ne_eq, hne0, hne, not_false_eq_true, and_self, if_true, hd, set_first,
    saveKnowledgePoints, mergeUpdates, Option.getD_some, Option.getD_none, hacc]
  rfl

/-- An empty title or content is refused before the store is read. -/
theorem addKnowledgePoint_refuses_empty (h : Host) (freshId title content : String)
    (tags : Option (List String)) (masteryLevel : JsStr) (s : Store)
    (hempty : title = "" ∨ content = "") :
    addKnowledgePoint h freshId title content tags masteryLevel s
      = .error "标题和内容不能为空" := by
  unfold addKnowledgePoint
  simp only [hempty, if_true]

theorem ne_empty_of_jsTrim_ne_empty (s : String) (hs : jsTrim s ≠ "") : s ≠ "" := by
  rintro rfl
  exact hs rfl

/-! ## Outcomes of `updateKnowledgePoint` -/


theorem saveKnowledgePoints_cases (h : Host) (points : List KnowledgePoint) (s : Store) :
    saveKnowledgePoints h points s = (true, .array points) ∨
      saveKnowledgePoints h points s = (false, s) := by
  unfold saveKnowledgePoints
  split_ifs
  · exact Or.inl rfl
  · exact Or.inr rfl

/-- The three outcomes of `updateKnowledgePoint`: `false` with the store as
it was (unknown id), an exception, or one whole-collection save of the
collection in which the point found is replaced by its merge with an update
object that agrees with the given one except, possibly, on `nextReview`. -/
theorem updateKnowledgePoint_outcome (h : Host) (id : String) (u : Updates) (s : Store) :
    updateKnowledgePoint h id u s = .ok (false, s) ∨
    (∃ e, updateKnowledgePoint h id u s = .error e) ∨
    ∃ index cur u', findIndex id (loadKnowledgePoints s) = some index ∧
      (loadKnowledgePoints s).get? index = some cur ∧
      (u'.id = u.id ∧ u'.title = u.title ∧ u'.content = u.content ∧
        u'.masteryLevel = u.masteryLevel ∧ u'.lastReviewed = u.lastReviewed ∧
        u'.reviewCount = u.reviewCount ∧ u'.createdAt = u.createdAt ∧ u'.tags = u.tags) ∧
      updateKnowledgePoint h id u s
        = .ok (saveKnowledgePoints h
            ((loadKnowledgePoints s).set index (mergeUpdates cur u')) s) := by
  rcases Option.eq_none_or_eq_some (findIndex id (loadKnowledgePoints s)) with
    hfi | ⟨index, hfi⟩
  · left
    simp only [updateKnowledgePoint, hfi]
  rcases Option.eq_none_or_eq_some ((loadKnowledgePoints s).get? index) with
    hget | ⟨cur, hget⟩
  · left
    simp only [updateKnowledgePoint, hfi, hget]
  right
  have hframe : ∀ v : Updates, v.id = v.id ∧ v.title = v.title ∧ v.content = v.content ∧
      v.masteryLevel = v.masteryLevel ∧ v.lastReviewed = v.lastReviewed ∧
      v.reviewCount = v.reviewCount ∧ v.createdAt = v.createdAt ∧ v.tags = v.tags :=
    fun _ => ⟨rfl, rfl, rfl, rfl, rfl, rfl, rfl, rfl⟩
  rcases Option.eq_none_or_eq_some u.masteryLevel with hlevel | ⟨level, hlevel⟩
  · right
    exact ⟨index, cur, u, hfi, hget, hframe u,
      by simp only [updateKnowledgePoint, hfi, hget, hlevel]⟩
  by_cases hch : level ≠ "" ∧ level ≠ cur.masteryLevel
  · cases hcalc : calculateNextReviewDate h (.str level) (.str (getTodayString h))
        cur.reviewCount with
    | error e =>
      left
      exact ⟨e, by simp only [updateKnowledgePoint, hfi, hget, hlevel, hch, if_true, hcalc,
        ne_eq, not_false_eq_true, and_self]⟩
    | ok d =>
      right
      refine ⟨index, cur, { u with nextReview := some (.str d) }, hfi, hget,
        ⟨rfl, rfl, rfl, rfl, rfl, rfl, rfl, rfl⟩, ?_⟩
      simp only [updateKnowledgePoint, hfi, hget, hlevel, hch, if_true, hcalc,
        ne_eq, not_false_eq_true, and_self]
  · right
    refine ⟨index, cur, u, hfi, hget, hframe u, ?_⟩
    simp only [updateKnowledgePoint, hfi, hget, hlevel, hch, if_false]

/-- When `updateKnowledgePoint` returns `false` the store is as it was. -/
theorem updateKnowledgePoint_false_keeps_store (h : Host) (id : String) (u : Updates)
    (s s' : Store) (hfail : updateKnowledgePoint h id u s = .ok (false, s')) : s' = s := by
  rcases updateKnowledgePoint_outcome h id u s with
    hout | ⟨e, hout⟩ | ⟨i, cur, u', _, _, _, hout⟩
  · rw [hout] at hfail
    simp only [Except.ok.injEq, Prod.mk.injEq, true_and] at hfail
    exact hfail.symm
  · rw [hout] at hfail
    cases hfail
  · rw [hout] at hfail
    rcases saveKnowledgePoints_cases h ((loadKnowledgePoints s).set i (mergeUpdates cur u')) s
      with hsv | hsv
    · rw [hsv] at hfail
      simp at hfail
    · rw [hsv] at hfail
      simp only [Except.ok.injEq, Prod.mk.injEq, true_and] at hfail
      exact hfail.symm

/-! ## Frame lemmas -/

theorem findIndex_some_id (id : String) (points : List KnowledgePoint) (index : Nat)
    (cur : KnowledgePoint) (hfi : findIndex id points = some index)
    (hget : points.get? index = some cur) : cur.id = id := by
  induction points generalizing index with
  | nil => cases hfi
  | cons q rest ih =>
    unfold findIndex at hfi
    by_cases hq : q.id = id
    · rw [if_pos hq] at hfi
      cases hfi
      simp only [List.get?_cons_zero, Option.some.injEq] at hget
      rw [← hget]
      exact hq
    · rw [if_neg hq] at hfi
      cases hrest : findIndex id rest with
      | none => rw [hrest] at hfi; cases hfi
      | some j =>
        rw [hrest] at hfi
        simp only [Option.map_some', Option.some.injEq] at hfi
        subst hfi
        exact ih j hrest (by simpa using hget)

/-- The update object of a grade names only the four schedule fields. -/
theorem reviewUpdateData_fields (h : Host) (p : KnowledgePoint) (result : String)
    (u : Updates) (hu : reviewUpdateData h p result = .ok u) :
    u.id = none ∧ u.title = none ∧ u.content = none ∧ u.tags = none ∧
      u.createdAt = none := by
  unfold reviewUpdateData at hu
  split_ifs at hu
  · cases hc : calculateNextReviewDate h (.str (processReviewResult p.masteryLevel result))
        (.str (getTodayString h)) (p.reviewCount + 1) with
    | error e => simp only [hc] at hu; cases hu
    | ok d =>
      simp only [hc] at hu
      cases hu
      exact ⟨rfl, rfl, rfl, rfl, rfl⟩
  · cases hc : calculateNextReviewDate h (.str (processReviewResult p.masteryLevel result))
        (.str (getTodayString h)) 0 with
    | error e => simp only [hc] at hu; cases hu
    | ok d =>
      simp only [hc] at hu
      cases hu
      exact ⟨rfl, rfl, rfl, rfl, rfl⟩

/-- Replacing the point at one index: the other indices keep their points,
and the index itself holds the new point. -/
theorem set_frame (points : List KnowledgePoint) (index : Nat) (cur new : KnowledgePoint)
    (hget : points.get? index = some cur) (i : Nat) (q : KnowledgePoint)
    (hq : points.get? i = some q) :
    (i = index ∧ q = cur ∧ (points.set index new).get? i = some new) ∨
      (i ≠ index ∧ (points.set index new).get? i = some q) := by
  simp only [List.get?_eq_getElem?] at hget hq ⊢
  by_cases hi : i = index
  · left
    subst hi
    rw [hget] at hq
    refine ⟨rfl, (Option.some.inj hq).symm, ?_⟩
    rw [List.getElem?_set_self']
    rw [hget]
    rfl
  · right
    refine ⟨hi, ?_⟩
    rw [List.getElem?_set_ne (Ne.symm hi)]
    exact hq

/-! ## When `calculateNextReviewDate` throws -/

theorem REVIEW_INTERVALS_undefined_iff (level : String) :
    REVIEW_INTERVALS level = .undefined ↔
      level ∉ MASTERY_LEVELS ∧ level ∉ objectPrototypeKeys := by
  unfold REVIEW_INTERVALS
  by_cases h1 : level = "mastered"
  · subst h1
    simp [MASTERY_LEVELS]
  by_cases h2 : level = "learning"
  · subst h2
    simp [MASTERY_LEVELS]
  by_cases h3 : level = "struggling"
  · subst h3
    simp [MASTERY_LEVELS]
  have hnot : level ∉ MASTERY_LEVELS := by
    simp [MASTERY_LEVELS, h1, h2, h3]
  rw [if_neg h1, if_neg h2, if_neg h3]
  by_cases hk : level ∈ objectPrototypeKeys
  · rw [if_pos hk]
    simp [hk]
  · rw [if_neg hk]
    simp [hk, hnot]

/-- The scheduler throws exactly when the level or the anchor is missing or
empty, or the level is a string that is neither a mastery level nor a
property name inherited from `Object.prototype`. -/
theorem calculateNextReviewDate_throws_iff (h : Host) (masteryLevel lastReviewDate : JsStr)
    (n : Nat) :
    (∃ e, calculateNextReviewDate h masteryLevel lastReviewDate n = .error e) ↔
      masteryLevel.truthy = false ∨ lastReviewDate.truthy = false ∨
      ∃ level, masteryLevel = .str level ∧ level ∉ MASTERY_LEVELS ∧
        level ∉ objectPrototypeKeys := by
  unfold calculateNextReviewDate
  by_cases hm : masteryLevel.truthy = true
  · by_cases hd : lastReviewDate.truthy = true
    · simp only [hm, hd, Bool.not_true, Bool.or_self, Bool.false_eq_true, if_false,
        Bool.true_eq_false, false_or]
      cases masteryLevel with
      | undefined => cases hm
      | null => cases hm
      | str level =>
        simp only [JsStr.str.injEq, exists_eq_left']
        rw [← REVIEW_INTERVALS_undefined_iff]
        cases hlook : REVIEW_INTERVALS level with
        | array xs => simp
        | inherited => simp
        | undefined => simp
    · simp only [Bool.not_eq_true] at hd
      simp [hd]
  · simp only [Bool.not_eq_true] at hm
    simp [hm]

/-! ## The due queue and the advance step -/

theorem unitsLt_irrefl (xs : List Nat) : unitsLt xs xs = false := by
  induction xs with
  | nil => rfl
  | cons x rest ih =>
    unfold unitsLt
    simp only [lt_self_iff_false, if_false, ih]

theorem jsStrLe_refl (x : String) : jsStrLe x x = true := by
  unfold jsStrLe
  rw [unitsLt_irrefl]
  rfl

/-- A point whose review date is the string of today is in the due queue. -/
theorem mem_getPointsToReview_of_today (h : Host) (s : Store) (p : KnowledgePoint)
    (hp : p ∈ loadKnowledgePoints s) (hdate : p.nextReview = .str (getTodayString h)) :
    p ∈ getPointsToReview h s := by
  unfold getPointsToReview
  simp only [List.mem_filter, hp, true_and, hdate, jsStrLe_refl, Bool.or_true]

/-- The advance step when points are due: the queue is the due queue, the
cursor moves on by one or wraps to 0, and the card at the cursor is shown. -/
theorem nextReview_of_due (h : Host) (s : Store) (a : MyEbbinghausApp)
    (hne : getPointsToReview h s ≠ []) :
    ∃ p, (getPointsToReview h s).get?
          (if a.currentReviewIndex + 1 < (getPointsToReview h s).length
            then a.currentReviewIndex + 1 else 0) = some p ∧
      nextReview h s a
        = { a with
            currentReviewIndex :=
              if a.currentReviewIndex + 1 < (getPointsToReview h s).length
                then a.currentReviewIndex + 1 else 0
            reviewPoints := getPointsToReview h s
            screen := .card p
              ((if a.currentReviewIndex + 1 < (getPointsToReview h s).length
                then a.currentReviewIndex + 1 else 0) + 1)
              (getPointsToReview h s).length } := by
  generalize hq : getPointsToReview h s = queue at hne ⊢
  have hpos : 0 < queue.length := List.length_pos.mpr hne
  by_cases hin : a.currentReviewIndex + 1 < queue.length
  · rw [if_pos hin]
    refine ⟨queue.get ⟨_, hin⟩, List.get?_eq_get hin, ?_⟩
    unfold nextReview renderReviewCard
    simp only [hq, ge_iff_le, not_le.mpr hin, if_false]
    unfold showCard
    simp only [List.get?_eq_get hin]
  · rw [if_neg hin]
    refine ⟨queue.get ⟨0, hpos⟩, List.get?_eq_get hpos, ?_⟩
    unfold nextReview renderReviewCard
    simp only [hq, ge_iff_le, not_lt.mp hin, if_true, not_le.mpr hpos, if_false]
    unfold showCard
    simp only [List.get?_eq_get hpos]

/-- At or east of UTC (clock in the years 1000 to 9999), grading `failure`
on a struggling point, the session's current point and the first stored
point with its id, with the write accepted: the point is stored with
`nextReview` equal to today's date string and review count 0, it is in the
due queue afterwards, the session does not show the complete screen, and if
it is the only stored point the cursor is 0 and its card is shown again. -/
theorem markReviewResult_failure_struggling_east (h : Host) (a : MyEbbinghausApp)
    (pre post : List KnowledgePoint) (p : KnowledgePoint)
    (hcur : a.reviewPoints.get? a.currentReviewIndex = some p)
    (hfirst : ∀ q ∈ pre, q.id ≠ p.id) (hlevel : p.masteryLevel = "struggling")
    (hz0 : 0 ≤ h.tzMinutes) (hz1 : h.tzMinutes < 1440)
    (hd0 : -354285 ≤ Day (LocalTime h h.now)) (hd1 : Day (LocalTime h h.now) ≤ 2932896)
    (hacc : h.accepts (pre ++ { p with nextReview := .str (getTodayString h),
                                       reviewCount := 0 } :: post) = true) :
    markReviewResult h "failure" a (.array (pre ++ p :: post))
      = .ok (nextReview h (.array (pre ++ { p with nextReview := .str (getTodayString h),
                                                   reviewCount := 0 } :: post)) a,
             .array (pre ++ { p with nextReview := .str (getTodayString h),
                                     reviewCount := 0 } :: post)) ∧
    { p with nextReview := .str (getTodayString h), reviewCount := 0 }
      ∈ getPointsToReview h (.array (pre ++ { p with nextReview := .str (getTodayString h),
                                                     reviewCount := 0 } :: post)) ∧
    (nextReview h (.array (pre ++ { p with nextReview := .str (getTodayString h),
                                           reviewCount := 0 } :: post)) a).screen
      ≠ .complete ∧
    (pre = [] → post = [] →
      (nextReview h (.array [{ p with nextReview := .str (getTodayString h),
                                      reviewCount := 0 }]) a).currentReviewIndex = 0 ∧
      (nextReview h (.array [{ p with nextReview := .str (getTodayString h),
                                      reviewCount := 0 }]) a).screen
        = .card { p with nextReview := .str (getTodayString h), reviewCount := 0 } 1 1) := by
  have hcalc : calculateNextReviewDate h (.str "struggling") (.str (getTodayString h)) 0
      = .ok (getTodayString h) := by
    rw [getTodayString_eq_dayString]
    have hk : intervalFor "struggling" 0 = some 0 := rfl
    rw [calculateNextReviewDate_adds_interval_east h "struggling" 0 0 _ hk hd0 hd1 hz0 hz1]
    simp only [Nat.cast_zero, add_zero]
  have hgrade : processReviewResult p.masteryLevel "failure" = p.masteryLevel := by
    rw [hlevel]
    rfl
  have hcalc' : calculateNextReviewDate h (.str p.masteryLevel) (.str (getTodayString h)) 0
      = .ok (getTodayString h) := by
    rw [hlevel]
    exact hcalc
  have hmem : { p with nextReview := .str (getTodayString h), reviewCount := 0 }
      ∈ getPointsToReview h (.array (pre ++ { p with nextReview := .str (getTodayString h),
                                                     reviewCount := 0 } :: post)) :=
    mem_getPointsToReview_of_today h _ _ (by simp [loadKnowledgePoints]) rfl
  refine ⟨?_, hmem, ?_, ?_⟩
  · unfold markReviewResult reviewUpdateData
    simp only [hcur, hgrade, if_neg (show ¬("failure" = "success") by decide), hcalc']
    unfold updateKnowledgePoint
    simp only [loadKnowledgePoints, findIndex_first p pre post hfirst, get?_first,
      ne_eq, not_true_eq_false, and_false, if_false, set_first,
      saveKnowledgePoints, mergeUpdates, Option.getD_some, Option.getD_none, hacc, if_true]
  · obtain ⟨q, _, hnext⟩ := nextReview_of_due h _ a (List.ne_nil_of_mem hmem)
    rw [hnext]
    intro hc
    cases hc
  · intro hpre hpost
    have hdue : getPointsToReview h
        (.array [{ p with nextReview := .str (getTodayString h), reviewCount := 0 }])
        = [{ p with nextReview := .str (getTodayString h), reviewCount := 0 }] := by
      unfold getPointsToReview
      simp only [loadKnowledgePoints, List.filter_cons, jsStrLe_refl, Bool.or_true, if_true,
        List.filter_nil]
    obtain ⟨q, hq, hnext⟩ := nextReview_of_due h
      (.array [{ p with nextReview := .str (getTodayString h), reviewCount := 0 }]) a
      (by rw [hdue]; exact List.cons_ne_nil _ _)
    rw [hdue] at hq hnext
    have hidx : (if a.currentReviewIndex + 1 < ([{ p with
        nextReview := .str (getTodayString h), reviewCount := 0 }] : List KnowledgePoint).length
        then a.currentReviewIndex + 1 else 0) = 0 := by
      rw [if_neg]
      simp
    rw [hidx] at hq hnext
    simp only [List.get?_cons_zero, Option.some.injEq] at hq
    subst hq
    rw [hnext]
    exact ⟨rfl, rfl⟩

/-! ## Substring search -/

theorem startsWithChars_iff (text pattern : List Char) :
    startsWithChars text pattern = true ↔ pattern <+: text := by
  induction text generalizing pattern with
  | nil =>
    cases pattern with
    | nil => simp [startsWithChars]
    | cons x xs => simp [startsWithChars]
  | cons c cs ih =>
    cases pattern with
    | nil => simp [startsWithChars]
    | cons x xs =>
      simp only [startsWithChars, Bool.and_eq_true, decide_eq_true_eq, ih,
        List.cons_prefix_cons]
      constructor
      · rintro ⟨hc, hp⟩
        exact ⟨hc.symm, hp⟩
      · rintro ⟨hc, hp⟩
        exact ⟨hc.symm, hp⟩

/-- `includes` finds the pattern exactly when the pattern is a contiguous
part of the text. -/
theorem includesChars_iff (text pattern : List Char) :
    includesChars text pattern = true ↔ pattern <:+: text := by
  induction text with
  | nil => simp [includesChars]
  | cons c cs ih =>
    simp only [includesChars, Bool.or_eq_true, startsWithChars_iff, ih, List.infix_cons_iff]

theorem jsIncludes_iff (toLowerCase : String → String) (field query : String) :
    jsIncludes (toLowerCase field) (toLowerCase query) = true ↔
      containsIgnoringCase toLowerCase field query := by
  unfold jsIncludes containsIgnoringCase
  exact includesChars_iff _ _

/-! ## What `shouldReview` computes -/

theorem TimeClip_of_small (t : Int) (h0 : -8640000000000000 ≤ t) (h1 : t ≤ 8640000000000000) :
    TimeClip t = some t := by
  unfold TimeClip
  rw [if_pos]
  omega

/-- For a review date written as the date of day number `D'` (years 1000 to
9999) and a clock in those years, `shouldReview` compares day numbers, with
the review day moved by `Day (offset)`: it answers `D' ≤ today` at or east of
UTC and `D' - 1 ≤ today` west of UTC, where the date is due one day early. -/
theorem shouldReview_of_day (h : Host) (D' : Int)
    (hz0 : -1440 < h.tzMinutes) (hz1 : h.tzMinutes < 1440)
    (hr0 : -354285 ≤ D') (hr1 : D' ≤ 2932896)
    (hd0 : -354285 ≤ Day (LocalTime h h.now)) (hd1 : Day (LocalTime h h.now) ≤ 2932896) :
    shouldReview h (.str (dayString D'))
      = decide (D' + Day (h.tzMinutes * msPerMinute) ≤ Day (LocalTime h h.now)) := by
  obtain ⟨hY0, hY1⟩ := YearFromTime_of_day_range D' hr0 hr1
  obtain ⟨y, m, dd, hp, hnum⟩ := parseDateOnly_dayString D' hY0 hY1
  have hparse : newDate h (.str (dayString D')) = some (D' * msPerDay) := by
    show dateParse h (dayString D') = _
    rw [dateParse_of_dateOnly h _ y m dd hp, hnum]
  unfold shouldReview
  rw [hparse]
  unfold setHoursZero
  simp only []
  generalize hD : Day (LocalTime h h.now) = D at hd0 hd1 ⊢
  have hlocal : Day (LocalTime h (D' * msPerDay)) = D' + Day (h.tzMinutes * msPerMinute) := by
    unfold LocalTime Day msPerDay
    omega
  rw [hlocal]
  have hx : -86400000 < h.tzMinutes * msPerMinute ∧ h.tzMinutes * msPerMinute < 86400000 := by
    unfold msPerMinute
    omega
  have hdx : -1 ≤ Day (h.tzMinutes * msPerMinute) ∧ Day (h.tzMinutes * msPerMinute) ≤ 0 := by
    unfold Day msPerDay
    omega
  generalize h.tzMinutes * msPerMinute = x at hx hdx ⊢
  generalize Day x = e at hdx ⊢
  have hclip1 : TimeClip (UTC h (MakeDate D 0)) = some (UTC h (MakeDate D 0)) := by
    apply TimeClip_of_small <;> unfold UTC MakeDate msPerDay msPerMinute <;> omega
  have hclip2 : TimeClip (UTC h (MakeDate (D' + e) 0)) = some (UTC h (MakeDate (D' + e) 0)) := by
    apply TimeClip_of_small <;> unfold UTC MakeDate msPerDay msPerMinute <;> omega
  rw [hclip1, hclip2]
  simp only []
  congr 1
  unfold UTC MakeDate msPerDay
  apply propext
  constructor <;> intro hle <;> omega

/-! ## What a successful grade and a level edit store -/

/-- Grading `success`: when the session's current point is `p`, stored as
the first point with its id and holding a mastery level, the call computes
`d = calculateNextReviewDate(p.masteryLevel, today, p.reviewCount + 1)`
without throwing and, when the write is accepted, stores `p` with the same
mastery level, `reviewCount + 1`, `lastReviewed = today` and `nextReview = d`
(all other fields and points as before), then advances the session.  On a
host at or east of UTC whose local date is 2024-01-10, a struggling point
with review count 0 gets `d` = 2024-01-11. -/
theorem markReviewResult_success_stores (h : Host) (a : MyEbbinghausApp)
    (pre post : List KnowledgePoint) (p : KnowledgePoint)
    (hcur : a.reviewPoints.get? a.currentReviewIndex = some p)
    (hfirst : ∀ q ∈ pre, q.id ≠ p.id) (hm : p.masteryLevel ∈ MASTERY_LEVELS) :
    ∃ d, calculateNextReviewDate h (.str p.masteryLevel) (.str (getTodayString h))
          (p.reviewCount + 1) = .ok d ∧
      (h.accepts (pre ++ { p with lastReviewed := .str (getTodayString h),
                                  nextReview := .str d,
                                  reviewCount := p.reviewCount + 1 } :: post) = true →
        MyEbbinghausApp.markReviewResult h "success" a (.array (pre ++ p :: post))
          = .ok (MyEbbinghausApp.nextReview h
                  (.array (pre ++ { p with lastReviewed := .str (getTodayString h),
                                           nextReview := .str d,
                                           reviewCount := p.reviewCount + 1 } :: post)) a,
                 .array (pre ++ { p with lastReviewed := .str (getTodayString h),
                                         nextReview := .str d,
                                         reviewCount := p.reviewCount + 1 } :: post))) ∧
      (0 ≤ h.tzMinutes → h.tzMinutes < 1440 → getTodayString h = "2024-01-10" →
        p.masteryLevel = "struggling" → p.reviewCount = 0 → d = "2024-01-11") := by
  obtain ⟨d, hd⟩ := calculateNextReviewDate_ok h p.masteryLevel (getTodayString h)
    (p.reviewCount + 1) hm (getTodayString_ne_empty h)
  refine ⟨d, hd, ?_, ?_⟩
  · intro hacc
    have hgrade : processReviewResult p.masteryLevel "success" = p.masteryLevel := by
      simp [processReviewResult]
    unfold MyEbbinghausApp.markReviewResult MyEbbinghausApp.reviewUpdateData
    simp only [hcur, hgrade, if_true, hd]
    unfold updateKnowledgePoint
    simp only [loadKnowledgePoints, findIndex_first p pre post hfirst, get?_first,
      ne_eq, not_true_eq_false, and_false, if_false, set_first,
      saveKnowledgePoints, mergeUpdates, Option.getD_some, Option.getD_none, hacc, if_true]
  · intro h0 h1 htoday hlevel hcount
    have hcalc := calculateNextReviewDate_eq h "struggling" "2024-01-10" 1 1 2024 1 10 rfl rfl
    rw [Day_offset_east h.tzMinutes h0 h1] at hcalc
    rw [htoday, hlevel, hcount, hcalc] at hd
    have hstr : dayString (dayNumber 2024 1 10 + ((1 : Nat) : Int) + 0) = "2024-01-11" := rfl
    rw [hstr] at hd
    exact (Except.ok.inj hd).symm

/-- Grading `success` eight hours east of UTC on 2024-01-10: a struggling
point with review count 0 is stored with review count 1, `lastReviewed`
2024-01-10 and `nextReview` 2024-01-11. -/
theorem markReviewResult_success_east_example :
    (MyEbbinghausApp.markReviewResult (hostAt 480) "success"
        (sessionOn [samplePoint "a" "struggling" 0 "2024-01-10"])
        (.array [samplePoint "a" "struggling" 0 "2024-01-10"])).map Prod.snd
      = .ok (.array [{ samplePoint "a" "struggling" 1 "2024-01-11" with
                        lastReviewed := .str "2024-01-10" }]) := by
  obtain ⟨d, _, hstore, hdate⟩ := markReviewResult_success_stores (hostAt 480)
    (sessionOn [samplePoint "a" "struggling" 0 "2024-01-10"]) [] []
    (samplePoint "a" "struggling" 0 "2024-01-10") rfl (by simp) (by decide)
  have hd : d = "2024-01-11" := hdate (by decide) (by decide) rfl rfl rfl
  subst hd
  exact (congrArg (Except.map Prod.snd) (hstore rfl)).trans rfl

/-- Editing the mastery level: for a stored point `p` (the first with its id) and a mastery level
`m'` other than the stored one, `updateKnowledgePoint(p.id, {masteryLevel: m'})`
computes `d = calculateNextReviewDate(m', today, p.reviewCount)` without
throwing and, when the write is accepted, returns `true` and stores `p` with
`masteryLevel = m'` and `nextReview = d`, every other field (the review count
among them) and every other point as before.  On a host at or east of UTC
whose local date is 2024-01-10, a change to mastered at review count 3 gives
`d` = 2024-01-25. -/
theorem updateKnowledgePoint_mastery_edit_stores (h : Host) (pre post : List KnowledgePoint)
    (p : KnowledgePoint) (m' : String)
    (hfirst : ∀ q ∈ pre, q.id ≠ p.id) (hm : m' ∈ MASTERY_LEVELS)
    (hne : m' ≠ p.masteryLevel) :
    ∃ d, calculateNextReviewDate h (.str m') (.str (getTodayString h)) p.reviewCount = .ok d ∧
      (h.accepts (pre ++ { p with masteryLevel := m', nextReview := .str d } :: post) = true →
        updateKnowledgePoint h p.id { masteryLevel := some m' } (.array (pre ++ p :: post))
          = .ok (true,
              .array (pre ++ { p with masteryLevel := m', nextReview := .str d } :: post))) ∧
      (0 ≤ h.tzMinutes → h.tzMinutes < 1440 → getTodayString h = "2024-01-10" →
        m' = "mastered" → p.reviewCount = 3 → d = "2024-01-25") := by
  obtain ⟨d, hd⟩ := calculateNextReviewDate_ok h m' (getTodayString h) p.reviewCount hm
    (getTodayString_ne_empty h)
  have hm_ne : m' ≠ "" := by
    rintro rfl
    revert hm
    decide
  refine ⟨d, hd, ?_, ?_⟩
  · intro hacc
    unfold updateKnowledgePoint
    simp only [loadKnowledgePoints, findIndex_first p pre post hfirst, get?_first,
      hm_ne, hne, ne_eq, not_false_eq_true, and_self, if_true, hd, set_first,
      saveKnowledgePoints, mergeUpdates, Option.getD_some, Option.getD_none, hacc]
  · intro h0 h1 htoday hmast hcount
    have hcalc := calculateNextReviewDate_eq h "mastered" "2024-01-10" 3 15 2024 1 10 rfl rfl
    rw [Day_offset_east h.tzMinutes h0 h1] at hcalc
    rw [htoday, hmast, hcount, hcalc] at hd
    have hstr : dayString (dayNumber 2024 1 10 + ((15 : Nat) : Int) + 0) = "2024-01-25" := rfl
    rw [hstr] at hd
    exact (Except.ok.inj hd).symm

/-- Editing the level eight hours east of UTC on 2024-01-10: a learning
point with review count 3 edited to mastered is stored with `nextReview`
2024-01-25 and review count 3. -/
theorem updateKnowledgePoint_mastery_edit_east_example :
    updateKnowledgePoint (hostAt 480) "a" { masteryLevel := some "mastered" }
        (.array [samplePoint "a" "learning" 3 "2024-01-20"])
      = .ok (true, .array [samplePoint "a" "mastered" 3 "2024-01-25"]) := by
  obtain ⟨d, _, hstore, hdate⟩ := updateKnowledgePoint_mastery_edit_stores (hostAt 480) [] []
    (samplePoint "a" "learning" 3 "2024-01-20") "mastered"
    (by simp) (by decide) (by decide)
  have hd : d = "2024-01-25" := hdate (by decide) (by decide) rfl rfl rfl
  subst hd
  exact hstore rfl

/-! ## The claims

### C1: the date returned by `calculateNextReviewDate` -/

/-- C1: in a host five hours west of UTC, `calculateNextReviewDate` for a
mastered point anchored at 2024-01-01 with review count 99 returns
2024-01-30, one day before the date 30 days after the anchor (2024-01-31):
the anchor string is read as midnight UTC, which is the evening of the day
before in local time, and the days are added to that local day. -/
theorem C1_west_of_utc_result_is_one_day_early :
    calculateNextReviewDate (hostAt (-300)) (.str "mastered") (.str "2024-01-01") 99
      = .ok "2024-01-30" := by
  rfl

/-! ### C2: an explicit `nextReview` next to a changed mastery level -/

/-- C2: an update object carrying a changed mastery level and an explicit
`nextReview` of 2024-02-01 does not keep that value: for a learning point
with review count 3, on 2024-01-10, the stored `nextReview` is the recomputed
2024-01-25. -/
theorem C2_explicit_nextReview_is_overwritten :
    updateKnowledgePoint (hostAt 0) "a"
        { masteryLevel := some "mastered", nextReview := some (.str "2024-02-01") }
        (.array [samplePoint "a" "learning" 3 "2024-01-20"])
      = .ok (true, .array [samplePoint "a" "mastered" 3 "2024-01-25"]) := by
  rfl

/-! ### C3: grading a failed recall -/

/-- C3: a mastered point with review count 4, graded failure on 2024-01-10,
is stored as learning with review count 0 and `lastReviewed` untouched, but
with `nextReview` 2024-01-26 (the learning interval for the old count 4, 16
days), not 2024-01-11 (the interval for count 0). -/
theorem C3_failure_schedules_with_the_old_review_count :
    (MyEbbinghausApp.markReviewResult (hostAt 0) "failure"
        (sessionOn [samplePoint "a" "mastered" 4 "2024-01-10"])
        (.array [samplePoint "a" "mastered" 4 "2024-01-10"])).map Prod.snd
      = .ok (.array [samplePoint "a" "learning" 0 "2024-01-26"]) := by
  rfl

/-! ### C4: grading a successful recall -/

/-- C4: in a host five hours west of UTC, on 2024-01-10 (local date), a
struggling point with review count 0 graded `success` is stored with the same
mastery level, review count 1 and `lastReviewed` 2024-01-10, but with
`nextReview` 2024-01-10, not 2024-01-11 (today plus the one-day interval):
the point is due again the same day and its card is shown again. -/
theorem C4_west_of_utc_success_is_scheduled_a_day_early :
    getTodayString (hostAt (-300)) = "2024-01-10" ∧
    intervalFor "struggling" 1 = some 1 ∧
    markReviewResult (hostAt (-300)) "success"
        (sessionOn [samplePoint "a" "struggling" 0 "2024-01-10"])
        (.array [samplePoint "a" "struggling" 0 "2024-01-10"])
      = .ok ({ currentMode := "review",
               reviewPoints := [{ samplePoint "a" "struggling" 1 "2024-01-10" with
                                    lastReviewed := .str "2024-01-10" }],
               currentReviewIndex := 0,
               screen := .card { samplePoint "a" "struggling" 1 "2024-01-10" with
                                   lastReviewed := .str "2024-01-10" } 1 1 },
             .array [{ samplePoint "a" "struggling" 1 "2024-01-10" with
                         lastReviewed := .str "2024-01-10" }]) := by
  refine ⟨rfl, rfl, rfl⟩

/-! ### C5: demotion on failure -/

/-- C5: a failed recall demotes along mastered, learning, struggling and stays
at struggling: mastered gives learning, learning gives struggling, struggling
gives struggling (also when applied twice), and for every level the result
is never higher in the chain than the level it came from. -/
theorem C5_failure_demotes_with_sticky_floor :
    processReviewResult "mastered" "failure" = "learning" ∧
    processReviewResult "learning" "failure" = "struggling" ∧
    processReviewResult "struggling" "failure" = "struggling" ∧
    processReviewResult (processReviewResult "struggling" "failure") "failure" = "struggling" ∧
    ∀ m : String, masteryRank (processReviewResult m "failure") ≤ masteryRank m := by
  refine ⟨by decide, by decide, by decide, by decide, ?_⟩
  intro m
  unfold processReviewResult
  rw [if_neg (by decide)]
  by_cases h1 : m = "mastered"
  · subst h1; decide
  · by_cases h2 : m = "learning"
    · subst h2; decide
    · simp [h1, h2, masteryRank]

/-! ### C6: no promotion on success -/

/-- C6: a successful recall returns the level it was given, whatever that
level is: no promotion and no other change. -/
theorem C6_success_keeps_mastery (m : String) :
    processReviewResult m "success" = m := by
  simp [processReviewResult]

/-! ### C7: titles and contents that are blank -/

/-- C7: a title of three spaces is not refused: `addKnowledgePoint` succeeds
and appends a point whose stored title is the empty string. -/
theorem C7_whitespace_title_is_accepted :
    addKnowledgePoint (hostAt 0) "id1" "   " "c" (some []) (.str "struggling") .absent
      = .ok ({ samplePoint "id1" "struggling" 0 "2024-01-10" with
                 title := "", createdAt := "2024-01-10" },
             .array [{ samplePoint "id1" "struggling" 0 "2024-01-10" with
                 title := "", createdAt := "2024-01-10" }]) := by
  rfl

/-! ### C8: adding a point -/

/-- C8: for every store, every title and content that are non-empty after
trimming and every mastery level `m`, `addKnowledgePoint` computes
`d = calculateNextReviewDate(m, today, 0)` without throwing; when the write
is accepted it returns the point with the generated id, the trimmed title and
content, `masteryLevel = m`, `createdAt = today`, `lastReviewed = null`,
`reviewCount = 0` and `nextReview = d` (the date scheduled from its own
`createdAt`), and `loadKnowledgePoints` then returns the previous collection
followed by that point; it fails only when the write is rejected, and then
the store is untouched. -/
theorem C8_add_appends_scheduled_point (h : Host) (freshId title content : String)
    (tags : Option (List String)) (m : String) (s : Store)
    (ht : jsTrim title ≠ "") (hc : jsTrim content ≠ "") (hm : m ∈ MASTERY_LEVELS) :
    ∃ p : KnowledgePoint,
      p.id = freshId ∧ p.title = jsTrim title ∧ p.content = jsTrim content ∧
      p.masteryLevel = m ∧ p.createdAt = getTodayString h ∧ p.lastReviewed = .null ∧
      p.reviewCount = 0 ∧ p.tags = tags.getD [] ∧
      (∃ d, calculateNextReviewDate h (.str m) (.str p.createdAt) 0 = .ok d ∧
        p.nextReview = .str d) ∧
      (h.accepts (loadKnowledgePoints s ++ [p]) = true →
        ∃ s', addKnowledgePoint h freshId title content tags (.str m) s = .ok (p, s') ∧
          loadKnowledgePoints s' = loadKnowledgePoints s ++ [p]) ∧
      (h.accepts (loadKnowledgePoints s ++ [p]) = false →
        addKnowledgePoint h freshId title content tags (.str m) s = .error "保存知识点失败") := by
  obtain ⟨d, hd⟩ := calculateNextReviewDate_ok h m (getTodayString h) 0 hm
    (getTodayString_ne_empty h)
  have ht0 := ne_empty_of_jsTrim_ne_empty title ht
  have hc0 := ne_empty_of_jsTrim_ne_empty content hc
  refine ⟨{ id := freshId, title := jsTrim title, content := jsTrim content,
            masteryLevel := m, lastReviewed := .null, nextReview := .str d,
            reviewCount := 0, createdAt := getTodayString h, tags := tags.getD [] },
    rfl, rfl, rfl, rfl, rfl, rfl, rfl, rfl, ⟨d, hd, rfl⟩, ?_, ?_⟩
  · intro hacc
    refine ⟨.array (loadKnowledgePoints s ++ [_]), ?_, rfl⟩
    unfold addKnowledgePoint
    simp only [ht0, hc0, or_self, if_false, hd, saveKnowledgePoints, hacc, if_true,
      reduceCtorEq]
  · intro hrej
    unfold addKnowledgePoint
    simp only [ht0, hc0, or_self, if_false, hd, saveKnowledgePoints, hrej,
      Bool.false_eq_true, reduceCtorEq]

theorem C8_add_witness :
    ∃ (p : KnowledgePoint) (s' : Store),
      addKnowledgePoint (hostAt 480) "id1" " title " "body" (some ["x"]) (.str "learning")
          (.array [samplePoint "a" "mastered" 2 "2024-01-12"]) = .ok (p, s') ∧
      loadKnowledgePoints s' = [samplePoint "a" "mastered" 2 "2024-01-12", p] ∧
      p.title = "title" ∧ p.createdAt = "2024-01-10" ∧ p.nextReview = .str "2024-01-11" := by
  obtain ⟨p, _, htitle, _, _, hcreated, _, _, _, ⟨d, hd, hnext⟩, hok, _⟩ :=
    C8_add_appends_scheduled_point (hostAt 480) "id1" " title " "body" (some ["x"])
      "learning" (.array [samplePoint "a" "mastered" 2 "2024-01-12"])
      (by decide) (by decide) (by decide)
  obtain ⟨s', hadd, hload⟩ := hok rfl
  have hcalc : calculateNextReviewDate (hostAt 480) (.str "learning")
      (.str (getTodayString (hostAt 480))) 0 = .ok "2024-01-11" := rfl
  rw [hcreated, hcalc] at hd
  have hdate : d = "2024-01-11" := (Except.ok.inj hd).symm
  subst hdate
  exact ⟨p, s', hadd, hload, htitle.trans rfl, hcreated.trans rfl, hnext⟩

/-! ### C9: editing the mastery level -/

/-- C9: in a host five hours west of UTC, on 2024-01-10 (local date), editing
a learning point with review count 3 to mastered stores mastery level
mastered and review count 3, but `nextReview` 2024-01-24, not 2024-01-25
(today plus the 15-day interval). -/
theorem C9_west_of_utc_mastery_edit_is_scheduled_a_day_early :
    getTodayString (hostAt (-300)) = "2024-01-10" ∧
    intervalFor "mastered" 3 = some 15 ∧
    updateKnowledgePoint (hostAt (-300)) "a" { masteryLevel := some "mastered" }
        (.array [samplePoint "a" "learning" 3 "2024-01-20"])
      = .ok (true, .array [samplePoint "a" "mastered" 3 "2024-01-24"]) := by
  refine ⟨rfl, rfl, rfl⟩

/-! ### C10: updating an unknown id -/

/-- C10: when no stored point has the id, `updateKnowledgePoint` returns
`false` (the not-found report) for every update object, throws nothing, and
the store is exactly what it was before the call. -/
theorem C10_update_unknown_id_reports_failure (h : Host) (id : String) (updates : Updates)
    (s : Store) (hid : ∀ q ∈ loadKnowledgePoints s, q.id ≠ id) :
    updateKnowledgePoint h id updates s = .ok (false, s) := by
  unfold updateKnowledgePoint
  simp only [findIndex_none_of_absent id (loadKnowledgePoints s) hid]

theorem C10_update_unknown_id_witness :
    updateKnowledgePoint (hostAt 0) "zz" { masteryLevel := some "mastered" }
        (.array [samplePoint "a" "learning" 3 "2024-01-20"])
      = .ok (false, .array [samplePoint "a" "learning" 3 "2024-01-20"]) :=
  C10_update_unknown_id_reports_failure (hostAt 0) "zz" { masteryLevel := some "mastered" }
    (.array [samplePoint "a" "learning" 3 "2024-01-20"]) (by decide)

/-! ### C11: deleting a point -/

/-- C11: `deleteKnowledgePoint(id)`.  When no stored point has the id the call
returns `false` and the store is exactly as before.  When the write is
accepted, `loadKnowledgePoints` afterwards returns the previous collection
without the points of that id, the others in their previous order, so no
point with that id is left, and the call returns `true` exactly when some
point had the id.  When the write is rejected the store is unchanged. -/
theorem C11_delete_removes_exactly_that_id (h : Host) (id : String) (s : Store) :
    ((∀ q ∈ loadKnowledgePoints s, q.id ≠ id) → deleteKnowledgePoint h id s = (false, s)) ∧
    (h.accepts ((loadKnowledgePoints s).filter fun point => point.id ≠ id) = true →
      loadKnowledgePoints (deleteKnowledgePoint h id s).2
          = (loadKnowledgePoints s).filter (fun point => point.id ≠ id) ∧
      (∀ q ∈ loadKnowledgePoints (deleteKnowledgePoint h id s).2, q.id ≠ id) ∧
      ((deleteKnowledgePoint h id s).1 = true ↔ ∃ q ∈ loadKnowledgePoints s, q.id = id)) ∧
    (h.accepts ((loadKnowledgePoints s).filter fun point => point.id ≠ id) = false →
      (deleteKnowledgePoint h id s).2 = s) := by
  have hlen : ((loadKnowledgePoints s).filter fun point => point.id ≠ id).length
        = (loadKnowledgePoints s).length ↔ ∀ q ∈ loadKnowledgePoints s, q.id ≠ id := by
    rw [List.filter_length_eq_length]
    simp
  refine ⟨?_, ?_, ?_⟩
  · intro hnone
    unfold deleteKnowledgePoint
    simp only [hlen.mpr hnone, if_true]
  · intro hacc
    by_cases hnone : ∀ q ∈ loadKnowledgePoints s, q.id ≠ id
    · have hsame : (loadKnowledgePoints s).filter (fun point => point.id ≠ id)
          = loadKnowledgePoints s := by
        rw [List.filter_eq_self]
        simpa using hnone
      have hdel : deleteKnowledgePoint h id s = (false, s) := by
        unfold deleteKnowledgePoint
        simp only [hlen.mpr hnone, if_true]
      rw [hdel, hsame]
      refine ⟨rfl, hnone, ?_⟩
      constructor
      · intro hfalse
        cases hfalse
      · rintro ⟨q, hq, hid⟩
        exact absurd hid (hnone q hq)
    · have hdel : deleteKnowledgePoint h id s
          = (true, .array ((loadKnowledgePoints s).filter fun point => point.id ≠ id)) := by
        unfold deleteKnowledgePoint
        simp only [mt hlen.mp hnone, if_false, saveKnowledgePoints, hacc, if_true]
      rw [hdel]
      refine ⟨rfl, ?_, ?_⟩
      · intro q hq
        simp only [loadKnowledgePoints, List.mem_filter, decide_eq_true_eq] at hq
        exact hq.2
      · constructor
        · intro _
          by_contra hno
          exact hnone (fun q hq hid => hno ⟨q, hq, hid⟩)
        · intro _
          rfl
  · intro hrej
    unfold deleteKnowledgePoint
    simp only [saveKnowledgePoints, hrej, Bool.false_eq_true, if_false]
    split_ifs <;> rfl

theorem C11_delete_witness :
    deleteKnowledgePoint (hostAt 0) "a"
        (.array [samplePoint "a" "struggling" 0 "2024-01-10",
                 samplePoint "b" "learning" 1 "2024-01-12",
                 samplePoint "c" "mastered" 2 "2024-01-15"])
      = (true, .array [samplePoint "b" "learning" 1 "2024-01-12",
                       samplePoint "c" "mastered" 2 "2024-01-15"]) ∧
    deleteKnowledgePoint (hostAt 0) "zz" (.array [samplePoint "b" "learning" 1 "2024-01-12"])
      = (false, .array [samplePoint "b" "learning" 1 "2024-01-12"]) := by
  refine ⟨rfl, ?_⟩
  exact (C11_delete_removes_exactly_that_id (hostAt 0) "zz"
    (.array [samplePoint "b" "learning" 1 "2024-01-12"])).1 (by decide)

/-! ### C12: the due queue and `shouldReview` -/

/-- C12: the query and `shouldReview` do not select the same points.  A point
without a `nextReview` is in the queue returned by `getPointsToReview`, but
`shouldReview(undefined)` is `false` (the date is invalid and the comparison
with `NaN` fails).  And five hours west of UTC, on 2024-01-10, a point with
`nextReview` 2024-01-11 is not in the queue, but `shouldReview("2024-01-11")`
is `true` (the string is read as midnight UTC, which is 2024-01-10 in local
time). -/
theorem C12_query_and_shouldReview_disagree :
    getPointsToReview (hostAt 0)
        (.array [{ samplePoint "a" "learning" 1 "" with nextReview := .undefined }])
      = [{ samplePoint "a" "learning" 1 "" with nextReview := .undefined }] ∧
    shouldReview (hostAt 0) .undefined = false ∧
    getTodayString (hostAt (-300)) = "2024-01-10" ∧
    getPointsToReview (hostAt (-300)) (.array [samplePoint "b" "learning" 1 "2024-01-11"])
      = [] ∧
    shouldReview (hostAt (-300)) (.str "2024-01-11") = true := by
  refine ⟨rfl, rfl, rfl, rfl, rfl⟩

/-! ### C13: searching -/

/-- C13 (as claimed, refuted): a point titled "Abc" contains the trimmed
query "abc" when case is ignored, but `searchKnowledgePoints(" abc")`
returns nothing, while `searchKnowledgePoints("abc")` returns the point: the
leading space changes the result. -/
theorem C13_leading_space_changes_the_result :
    jsTrim " abc" = "abc" ∧
    matchesQuery asciiToLowerCase
      { samplePoint "a" "learning" 1 "2024-01-12" with title := "Abc" } (jsTrim " abc") ∧
    searchKnowledgePoints asciiToLowerCase " abc"
        (.array [{ samplePoint "a" "learning" 1 "2024-01-12" with title := "Abc" }]) = [] ∧
    searchKnowledgePoints asciiToLowerCase "abc"
        (.array [{ samplePoint "a" "learning" 1 "2024-01-12" with title := "Abc" }])
      = [{ samplePoint "a" "learning" 1 "2024-01-12" with title := "Abc" }] := by
  refine ⟨rfl, Or.inl ⟨[], [], rfl⟩, rfl, rfl⟩

/-- C13 (amended): `searchKnowledgePoints(q)` trims `q` only to test whether
it is blank.  If the trimmed query is empty it returns all points; otherwise
it returns, in store order, exactly the points whose title, content or at
least one tag contains the query as given, not trimmed, as a substring when
case is ignored. -/
theorem C13_search_matches_the_query_as_given (toLowerCase : String → String)
    (query : String) (s : Store) :
    (jsTrim query = "" → searchKnowledgePoints toLowerCase query s = loadKnowledgePoints s) ∧
    (jsTrim query ≠ "" →
      ∃ keep : KnowledgePoint → Bool,
        (∀ point, keep point = true ↔ matchesQuery toLowerCase point query) ∧
        searchKnowledgePoints toLowerCase query s = (loadKnowledgePoints s).filter keep) := by
  constructor
  · intro hblank
    unfold searchKnowledgePoints
    rw [if_pos (Or.inr hblank)]
    rfl
  · intro hquery
    have hne : query ≠ "" := by
      rintro rfl
      exact hquery rfl
    refine ⟨fun point =>
      jsIncludes (toLowerCase point.title) (toLowerCase query) ||
      jsIncludes (toLowerCase point.content) (toLowerCase query) ||
      point.tags.any fun tag => jsIncludes (toLowerCase tag) (toLowerCase query), ?_, ?_⟩
    · intro point
      unfold matchesQuery
      simp only [Bool.or_eq_true, List.any_eq_true, jsIncludes_iff, or_assoc]
    · unfold searchKnowledgePoints
      rw [if_neg (by simp [hne, hquery])]

theorem C13_search_witness :
    searchKnowledgePoints asciiToLowerCase "   "
        (.array [samplePoint "a" "learning" 1 "2024-01-12"])
      = [samplePoint "a" "learning" 1 "2024-01-12"] :=
  (C13_search_matches_the_query_as_given asciiToLowerCase "   "
    (.array [samplePoint "a" "learning" 1 "2024-01-12"])).1 rfl

/-! ### C14: saving what was loaded -/

/-- C14: for every store state (nothing stored, something that is no array,
or an array), after `saveKnowledgePoints(loadKnowledgePoints())` a further
`loadKnowledgePoints()` returns the sequence of points it returned before,
whether the write was accepted or rejected; the save returns `true` exactly
when the write was accepted. -/
theorem C14_save_of_load_keeps_the_collection (h : Host) (s : Store) :
    loadKnowledgePoints (saveKnowledgePoints h (loadKnowledgePoints s) s).2
        = loadKnowledgePoints s ∧
      (saveKnowledgePoints h (loadKnowledgePoints s) s).1
        = h.accepts (loadKnowledgePoints s) := by
  unfold saveKnowledgePoints
  by_cases hacc : h.accepts (loadKnowledgePoints s) = true
  · rw [if_pos hacc]
    exact ⟨rfl, hacc.symm⟩
  · rw [if_neg hacc]
    exact ⟨rfl, ((Bool.not_eq_true _).mp hacc).symm⟩

/-! ### C15: the advance step -/

/-- C15: after one advance step (`nextReview`, which ends in
`renderReviewCard`), from any session state and store: the queue is the live
result of `getPointsToReview`; if that is empty the complete screen is shown;
if it is not empty the cursor is inside the queue, equal to the old cursor
plus one when that is inside the new queue and to 0 otherwise, and the screen
shows the card of the point at the cursor, not the complete screen.  The mode
is unchanged.  A skip and a grade that returns both end in this step. -/
theorem C15_advance_requeues_and_wraps (h : Host) (s : Store) (a : MyEbbinghausApp) :
    (nextReview h s a).reviewPoints = getPointsToReview h s ∧
    (getPointsToReview h s = [] → (nextReview h s a).screen = .complete) ∧
    (getPointsToReview h s ≠ [] →
      (nextReview h s a).currentReviewIndex < (nextReview h s a).reviewPoints.length ∧
      (a.currentReviewIndex + 1 < (getPointsToReview h s).length →
        (nextReview h s a).currentReviewIndex = a.currentReviewIndex + 1) ∧
      (¬ a.currentReviewIndex + 1 < (getPointsToReview h s).length →
        (nextReview h s a).currentReviewIndex = 0) ∧
      (∃ p, (getPointsToReview h s).get? (nextReview h s a).currentReviewIndex = some p ∧
        (nextReview h s a).screen
          = .card p ((nextReview h s a).currentReviewIndex + 1)
              (getPointsToReview h s).length) ∧
      (nextReview h s a).screen ≠ .complete) ∧
    (nextReview h s a).currentMode = a.currentMode ∧
    (skipReview h a s).1 = nextReview h s a ∧
    (∀ result a' s', markReviewResult h result a s = .ok (a', s') →
      a' = nextReview h s' a) := by
  generalize hq : getPointsToReview h s = queue
  have hshow : ∀ (b : MyEbbinghausApp) (p : KnowledgePoint),
      b.reviewPoints.get? b.currentReviewIndex = some p →
      showCard b = { b with screen := .card p (b.currentReviewIndex + 1) b.reviewPoints.length } := by
    intro b p hb
    unfold showCard
    rw [hb]
  refine ⟨?_, ?_, ?_, ?_, rfl, ?_⟩
  · unfold nextReview renderReviewCard showReviewComplete showCard
    simp only [hq]
    split_ifs <;> (try split) <;> simp_all
  · intro hempty
    subst hempty
    unfold nextReview renderReviewCard showReviewComplete
    simp [hq]
  · intro hne
    have hpos : 0 < queue.length := List.length_pos.mpr hne
    by_cases hin : a.currentReviewIndex + 1 < queue.length
    · obtain ⟨p, hp⟩ : ∃ p, queue.get? (a.currentReviewIndex + 1) = some p :=
        ⟨queue.get ⟨_, hin⟩, List.get?_eq_get hin⟩
      have hnext : nextReview h s a
          = { a with currentReviewIndex := a.currentReviewIndex + 1, reviewPoints := queue,
                     screen := .card p (a.currentReviewIndex + 1 + 1) queue.length } := by
        unfold nextReview renderReviewCard
        simp only [hq, ge_iff_le, not_le.mpr hin, if_false]
        rw [hshow _ p hp]
      rw [hnext]
      refine ⟨hin, fun _ => rfl, fun hno => absurd hin hno, ⟨p, hp, rfl⟩, ?_⟩
      intro hc
      cases hc
    · obtain ⟨p, hp⟩ : ∃ p, queue.get? 0 = some p :=
        ⟨queue.get ⟨0, hpos⟩, List.get?_eq_get hpos⟩
      have hnext : nextReview h s a
          = { a with currentReviewIndex := 0, reviewPoints := queue,
                     screen := .card p 1 queue.length } := by
        unfold nextReview renderReviewCard
        simp only [hq, ge_iff_le, not_lt.mp hin, if_true, not_le.mpr hpos, if_false]
        rw [hshow _ p hp]
      rw [hnext]
      refine ⟨hpos, fun hyes => absurd hyes hin, fun _ => rfl, ⟨p, hp, rfl⟩, ?_⟩
      intro hc
      cases hc
  · unfold nextReview renderReviewCard showReviewComplete showCard
    simp only [hq]
    split_ifs <;> (try split) <;> simp_all
  · intro result a' s' hres
    unfold markReviewResult at hres
    split at hres
    · cases hres
    · split at hres
      · cases hres
      · split at hres
        · cases hres
        · rename_i hupd
          simp only [Except.ok.injEq, Prod.mk.injEq] at hres
          obtain ⟨ha, hs⟩ := hres
          subst hs
          exact ha.symm

/-! ### C16: a grade the store does not take -/

/-- C16 (as claimed, refuted): with a store that rejects the write,
`updateKnowledgePoint` returns `false` for the update object of a successful
recall, yet `markReviewResult('success')` leaves the session in review mode
showing the card again; it does not switch to list mode. -/
theorem C16_rejected_write_does_not_leave_review_mode :
    updateKnowledgePoint (fullHostAt 0) "a"
        { masteryLevel := some "struggling", lastReviewed := some (.str "2024-01-10"),
          nextReview := some (.str "2024-01-11"), reviewCount := some 1 }
        (.array [samplePoint "a" "struggling" 0 "2024-01-10"])
      = .ok (false, .array [samplePoint "a" "struggling" 0 "2024-01-10"]) ∧
    markReviewResult (fullHostAt 0) "success"
        (sessionOn [samplePoint "a" "struggling" 0 "2024-01-10"])
        (.array [samplePoint "a" "struggling" 0 "2024-01-10"])
      = .ok ({ currentMode := "review",
               reviewPoints := [samplePoint "a" "struggling" 0 "2024-01-10"],
               currentReviewIndex := 0,
               screen := .card (samplePoint "a" "struggling" 0 "2024-01-10") 1 1 },
             .array [samplePoint "a" "struggling" 0 "2024-01-10"]) ∧
    ("review" : String) ≠ "list" := by
  refine ⟨rfl, rfl, by decide⟩

/-- C16 (amended): when `updateKnowledgePoint` returns `false` for the update
object of the grade (unknown id or rejected write), `markReviewResult` does
not look at that value: the store is as it was, and the session does what a
skip does, it keeps its mode and advances with the queue read again from
`getPointsToReview`. -/
theorem C16_failed_update_is_ignored (h : Host) (result : String) (a : MyEbbinghausApp)
    (s s' : Store) (p : KnowledgePoint) (u : Updates)
    (hcur : a.reviewPoints.get? a.currentReviewIndex = some p)
    (hu : reviewUpdateData h p result = .ok u)
    (hfail : updateKnowledgePoint h p.id u s = .ok (false, s')) :
    s' = s ∧
    markReviewResult h result a s = .ok (skipReview h a s) ∧
    (skipReview h a s).1.currentMode = a.currentMode ∧
    (skipReview h a s).1.reviewPoints = getPointsToReview h s := by
  have hs := updateKnowledgePoint_false_keeps_store h p.id u s s' hfail
  subst hs
  refine ⟨rfl, ?_, ?_, ?_⟩
  · unfold markReviewResult
    simp only [hcur, hu, hfail]
    rfl
  · unfold skipReview nextReview renderReviewCard showReviewComplete showCard
    simp only
    split_ifs <;> (try split) <;> simp_all
  · unfold skipReview nextReview renderReviewCard showReviewComplete showCard
    simp only
    split_ifs <;> (try split) <;> simp_all

theorem C16_failed_update_witness :
    markReviewResult (hostAt 0) "failure"
        (sessionOn [samplePoint "gone" "learning" 2 "2024-01-10"])
        (.array [samplePoint "b" "struggling" 0 "2024-01-10"])
      = .ok (skipReview (hostAt 0) (sessionOn [samplePoint "gone" "learning" 2 "2024-01-10"])
          (.array [samplePoint "b" "struggling" 0 "2024-01-10"])) :=
  (C16_failed_update_is_ignored (hostAt 0) "failure"
    (sessionOn [samplePoint "gone" "learning" 2 "2024-01-10"])
    (.array [samplePoint "b" "struggling" 0 "2024-01-10"])
    (.array [samplePoint "b" "struggling" 0 "2024-01-10"])
    (samplePoint "gone" "learning" 2 "2024-01-10")
    { masteryLevel := some "struggling", nextReview := some (.str "2024-01-10"),
      reviewCount := some 0 }
    rfl rfl rfl).2.1

/-! ### C17: a failed struggling point -/

/-- C17: in a host five hours west of UTC, on 2024-01-10 (local date), a
struggling point graded `failure` is stored with `nextReview` 2024-01-09,
the day before today, not today's date; it is still in the due queue and its
card is shown again. -/
theorem C17_west_of_utc_failed_struggling_is_dated_yesterday :
    getTodayString (hostAt (-300)) = "2024-01-10" ∧
    markReviewResult (hostAt (-300)) "failure"
        (sessionOn [samplePoint "a" "struggling" 0 "2024-01-10"])
        (.array [samplePoint "a" "struggling" 0 "2024-01-10"])
      = .ok ({ currentMode := "review",
               reviewPoints := [samplePoint "a" "struggling" 0 "2024-01-09"],
               currentReviewIndex := 0,
               screen := .card (samplePoint "a" "struggling" 0 "2024-01-09") 1 1 },
             .array [samplePoint "a" "struggling" 0 "2024-01-09"]) := by
  refine ⟨rfl, rfl⟩

/-! ### C18: when the scheduler fails -/

/-- C18: `"constructor"` is not a mastery level, yet
`calculateNextReviewDate("constructor", "2024-01-10", 0)` does not throw: the
table read finds the property inherited from `Object.prototype`, the test
`!intervals` passes, and the call returns the string `NaN-NaN-NaN`. -/
theorem C18_inherited_key_does_not_throw :
    "constructor" ∉ MASTERY_LEVELS ∧
    calculateNextReviewDate (hostAt 0) (.str "constructor") (.str "2024-01-10") 0
      = .ok "NaN-NaN-NaN" := by
  refine ⟨by decide, rfl⟩

/-! ### C19: what a grade and a skip may change -/

/-- C19: grading the current point `p` with any result: the store afterwards
(the store as it was if the call threw or the update was not taken) has as
many points as before, in the same positions; every point keeps its id,
title, content, tags and creation date; every point whose id is not `p.id`
is unchanged, and at most one position differs at all.  A skip returns the
store it was given. -/
theorem C19_grade_changes_only_schedule_fields (h : Host) (result : String)
    (a : MyEbbinghausApp) (s : Store) (p : KnowledgePoint)
    (hcur : a.reviewPoints.get? a.currentReviewIndex = some p) :
    (loadKnowledgePoints (storeAfter (markReviewResult h result a s) s)).length
        = (loadKnowledgePoints s).length ∧
    (∀ i q, (loadKnowledgePoints s).get? i = some q →
      ∃ r, (loadKnowledgePoints (storeAfter (markReviewResult h result a s) s)).get? i
            = some r ∧
        r.id = q.id ∧ r.title = q.title ∧ r.content = q.content ∧ r.tags = q.tags ∧
        r.createdAt = q.createdAt ∧ (q.id ≠ p.id → r = q)) ∧
    (∃ k, ∀ i, i ≠ k →
      (loadKnowledgePoints (storeAfter (markReviewResult h result a s) s)).get? i
        = (loadKnowledgePoints s).get? i) ∧
    (skipReview h a s).2 = s := by
  have hsame : ∀ t, t = s →
      (loadKnowledgePoints t).length = (loadKnowledgePoints s).length ∧
      (∀ i q, (loadKnowledgePoints s).get? i = some q →
        ∃ r, (loadKnowledgePoints t).get? i = some r ∧
          r.id = q.id ∧ r.title = q.title ∧ r.content = q.content ∧ r.tags = q.tags ∧
          r.createdAt = q.createdAt ∧ (q.id ≠ p.id → r = q)) ∧
      (∃ k, ∀ i, i ≠ k → (loadKnowledgePoints t).get? i = (loadKnowledgePoints s).get? i) := by
    intro t ht
    subst ht
    exact ⟨rfl, fun i q hq => ⟨q, hq, rfl, rfl, rfl, rfl, rfl, fun _ => rfl⟩,
      ⟨0, fun _ _ => rfl⟩⟩
  suffices key : (loadKnowledgePoints (storeAfter (markReviewResult h result a s) s)).length
        = (loadKnowledgePoints s).length ∧
      (∀ i q, (loadKnowledgePoints s).get? i = some q →
        ∃ r, (loadKnowledgePoints (storeAfter (markReviewResult h result a s) s)).get? i
              = some r ∧
          r.id = q.id ∧ r.title = q.title ∧ r.content = q.content ∧ r.tags = q.tags ∧
          r.createdAt = q.createdAt ∧ (q.id ≠ p.id → r = q)) ∧
      (∃ k, ∀ i, i ≠ k →
        (loadKnowledgePoints (storeAfter (markReviewResult h result a s) s)).get? i
          = (loadKnowledgePoints s).get? i) from ⟨key.1, key.2.1, key.2.2, rfl⟩
  cases hu : reviewUpdateData h p result with
  | error e =>
    have hres : markReviewResult h result a s = .error e := by
      simp only [markReviewResult, hcur, hu]
    rw [hres]
    exact hsame _ rfl
  | ok u =>
    obtain ⟨hid, htitle, hcontent, htags, hcreated⟩ := reviewUpdateData_fields h p result u hu
    rcases updateKnowledgePoint_outcome h p.id u s with
      hout | ⟨e, hout⟩ | ⟨index, cur, v, hfi, hget, hframe, hout⟩
    · have hres : markReviewResult h result a s = .ok (nextReview h s a, s) := by
        simp only [markReviewResult, hcur, hu, hout]
      rw [hres]
      exact hsame _ rfl
    · have hres : markReviewResult h result a s = .error e := by
        simp only [markReviewResult, hcur, hu, hout]
      rw [hres]
      exact hsame _ rfl
    · rcases saveKnowledgePoints_cases h
          ((loadKnowledgePoints s).set index (mergeUpdates cur v)) s with hsv | hsv
      · have hres : markReviewResult h result a s
            = .ok (nextReview h (.array ((loadKnowledgePoints s).set index
                (mergeUpdates cur v))) a,
              .array ((loadKnowledgePoints s).set index (mergeUpdates cur v))) := by
          simp only [markReviewResult, hcur, hu, hout, hsv]
        rw [hres]
        obtain ⟨h1, h2, h3, _, _, _, h7, h8⟩ := hframe
        have hcurid : cur.id = p.id := findIndex_some_id p.id _ index cur hfi hget
        refine ⟨by simp [storeAfter, loadKnowledgePoints], ?_, ⟨index, ?_⟩⟩
        · intro i q hq
          rcases set_frame (loadKnowledgePoints s) index cur (mergeUpdates cur v) hget i q hq
            with ⟨_, hqc, hnew⟩ | ⟨_, hold⟩
          · refine ⟨mergeUpdates cur v, hnew, ?_⟩
            subst hqc
            simp only [mergeUpdates, h1, h2, h3, h7, h8, hid, htitle, hcontent, htags,
              hcreated, Option.getD_none, true_and]
            intro hne
            exact absurd hcurid hne
          · exact ⟨q, hold, rfl, rfl, rfl, rfl, rfl, fun _ => rfl⟩
        · intro i hi
          show ((loadKnowledgePoints s).set index (mergeUpdates cur v)).get? i = _
          simp only [List.get?_eq_getElem?]
          exact List.getElem?_set_ne (Ne.symm hi)
      · have hres : markReviewResult h result a s = .ok (nextReview h s a, s) := by
          simp only [markReviewResult, hcur, hu, hout, hsv]
        rw [hres]
        exact hsame _ rfl

theorem C19_grade_frame_witness :
    (loadKnowledgePoints (storeAfter (markReviewResult (hostAt 480) "failure"
        (sessionOn [samplePoint "a" "mastered" 4 "2024-01-10"])
        (.array [samplePoint "z" "learning" 1 "2024-01-20",
                 samplePoint "a" "mastered" 4 "2024-01-10"]))
        (.array [samplePoint "z" "learning" 1 "2024-01-20",
                 samplePoint "a" "mastered" 4 "2024-01-10"]))).length = 2 :=
  (C19_grade_changes_only_schedule_fields (hostAt 480) "failure"
    (sessionOn [samplePoint "a" "mastered" 4 "2024-01-10"])
    (.array [samplePoint "z" "learning" 1 "2024-01-20",
             samplePoint "a" "mastered" 4 "2024-01-10"])
    (samplePoint "a" "mastered" 4 "2024-01-10") rfl).1

end Ebbinghaus
